import Mathlib

/-!
# Dataset container of the Embedded Machine Learning Library

A shallow embedding of `libraries/data/tcc/Dataset.tcc`.

* `size_t` values are natural numbers below `2 ^ 64`; every arithmetic operation the
  source performs on them is written with its wrap-around (`wrapAdd`, `wrapSub`, `wrapMul`).
* The row storage `_examples` (a `std::vector`) is a `List`.
* A member function that mutates the container is a function from the old container (and
  the old generator state) to an `Outcome`: the new state, a thrown exception together with
  the state at the point of the throw, or undefined behaviour (an access outside storage, an
  iterator moved outside storage, an algorithm called on `[first, last)` with `first` after
  `last`, a distribution built with `a > b`).
* The standard-library algorithms the source calls (`std::sort`, `std::partition`,
  `std::uniform_int_distribution`) are parameters, given by their documented contracts.
* `Print` writes to a text; building the indentation `std::string(tabs * 4, ' ')` leaves
  with `std::length_error` above `std::string::max_size()`, a parameter (`PrintOutcome`).
-/

namespace emll
namespace data

/-! ## Machine arithmetic on `size_t` -/

/-- Addition of two `size_t` values, wrapping modulo `2 ^ 64`. -/
def wrapAdd (a b : Nat) : Nat := (a + b) % 2 ^ 64

/-- Subtraction of two `size_t` values, wrapping modulo `2 ^ 64`. -/
def wrapSub (a b : Nat) : Nat := (a + (2 ^ 64 - b % 2 ^ 64)) % 2 ^ 64

/-- Multiplication of two `size_t` values, wrapping modulo `2 ^ 64`. -/
def wrapMul (a b : Nat) : Nat := (a * b) % 2 ^ 64

/-- A `size_t` value converted to the signed `difference_type` of the storage iterators, as
happens when it is added to an iterator: values from `2 ^ 63` on become negative. -/
def toDifference (n : Nat) : Int :=
  if n < 2 ^ 63 then (n : Int) else (n : Int) - 2 ^ 64

/-- The position of `it + n` for an iterator `it` at position `pos` of a storage of `N`
rows and a `size_t` value `n`; `none` when the result is not a position of `[begin, end]`. -/
def iteratorAdd (N pos n : Nat) : Option Nat :=
  let r : Int := (pos : Int) + toDifference n
  if 0 ≤ r ∧ r ≤ (N : Int) then some r.toNat else none

/-! ## Outcomes -/

/-- The error codes of `utilities::InputException` that the sources use. -/
inductive InputExceptionErrors where
  | invalidArgument
  | indexOutOfRange
  deriving DecidableEq, Repr

/-- Result of running a member function: normal return with the resulting state, an
exception that leaves with the state reached when it was thrown, or undefined behaviour. -/
inductive Outcome (σ : Type) where
  | ok (s : σ)
  | thrown (e : InputExceptionErrors) (s : σ)
  | undefined
  deriving DecidableEq, Repr

/-- Result of writing to the stream: the text after a normal return, the text at the moment
the constructor of `std::string` leaves with `std::length_error`, or undefined behaviour. -/
inductive PrintOutcome where
  | written (os : List Char)
  | lengthError (os : List Char)
  | undefined
  deriving DecidableEq, Repr

/-! ## The container -/

/-- The data members of `Dataset<DatasetExampleType>`: `_examples` and `_maxExampleSize`. -/
structure Dataset (α : Type) where
  examples : List α
  maxExampleSize : Nat
  deriving DecidableEq, Repr

namespace Dataset

variable {α β γ κ G : Type}

/-- `Dataset::CorrectRangeSize` (Dataset.tcc, lines 196-204). -/
def CorrectRangeSize (d : Dataset α) (fromRowIndex size : Nat) : Nat :=
  if size = 0 ∨ wrapAdd fromRowIndex size > d.examples.length then
    wrapSub d.examples.length fromRowIndex
  else
    size

/-! ### Lazy example sequences -/

/-- The state of `Dataset::DatasetExampleIterator<IteratorExampleType>`: the two positions
`_current` and `_end` handed to its constructor (Dataset.tcc, lines 41-44), together with the
storage they point into and the conversion from the stored row type to the element type. -/
structure DatasetExampleIterator (α β : Type) where
  storage : List α
  convert : α → β
  current : Nat
  endPos : Nat

/-- Modelled from the spec: `IsValid` of the iterator, whose body is in the header
`Dataset.h`. The sequence is backed by a pair of positions (begin, end) and is valid until
the cursor has reached the end position. -/
def DatasetExampleIterator.IsValid (it : DatasetExampleIterator α β) : Bool :=
  decide (it.current < it.endPos)

/-- Modelled from the spec: `Get` of the iterator, whose body is in the header `Dataset.h`.
On each pull the stored row under the cursor is converted to the requested element type;
`none` stands for reading outside storage. -/
def DatasetExampleIterator.Get (it : DatasetExampleIterator α β) : Option β :=
  (it.storage[it.current]?).map it.convert

/-- Modelled from the spec: `Next` of the iterator, whose body is in the header `Dataset.h`.
Advancing moves the cursor one row forward. -/
def DatasetExampleIterator.Next (it : DatasetExampleIterator α β) :
    DatasetExampleIterator α β :=
  { it with current := it.current + 1 }

/-- The two positions `begin() + fromRowIndex` and `begin() + fromRowIndex + size` that
`GetIterator`, `Sort` and `Partition` form; `none` when one of them is outside storage. -/
def iteratorRange (d : Dataset α) (fromRowIndex size : Nat) : Option (Nat × Nat) :=
  match iteratorAdd d.examples.length 0 fromRowIndex with
  | some first =>
    match iteratorAdd d.examples.length first size with
    | some last => some (first, last)
    | none => none
  | none => none

/-- `Dataset::GetIterator<IteratorExampleType>` (Dataset.tcc, lines 80-86). -/
def GetIterator (convert : α → β) (d : Dataset α) (fromRowIndex size : Nat) :
    Outcome (DatasetExampleIterator α β) :=
  let size := d.CorrectRangeSize fromRowIndex size
  match d.iteratorRange fromRowIndex size with
  | some (first, last) => .ok ⟨d.examples, convert, first, last⟩
  | none => .undefined

/-! ### Insertion, clearing and construction -/

/-- `Dataset::AddExample` (Dataset.tcc, lines 88-98); `dataSize` is
`example.GetDataVector().Size()`. -/
def AddExample (dataSize : α → Nat) (d : Dataset α) (ex : α) : Dataset α :=
  let size := dataSize ex
  let examples := d.examples ++ [ex]
  if d.maxExampleSize < size then ⟨examples, size⟩ else ⟨examples, d.maxExampleSize⟩

/-- `Dataset::Reset` (Dataset.tcc, lines 100-105). -/
def Reset (_d : Dataset α) : Dataset α := ⟨[], 0⟩

/-- The `while` loop of the constructor `Dataset(ExampleIterator)` (Dataset.tcc,
lines 49-53), run on the container built so far. An `ExampleIterator` forwards `IsValid`,
`Get` and `Next` to the iterator it wraps, which stands for it here. -/
def drain (dataSize : α → Nat) (it : DatasetExampleIterator γ α) (d : Dataset α) :
    Outcome (Dataset α) :=
  if it.IsValid = true then
    match it.Get with
    | some ex => drain dataSize it.Next (AddExample dataSize d ex)
    | none => .undefined
  else
    .ok d
termination_by it.endPos - it.current
decreasing_by
  simp only [DatasetExampleIterator.IsValid, decide_eq_true_eq] at *
  simp only [DatasetExampleIterator.Next]
  omega

/-- `Dataset::Dataset(ExampleIterator)` (Dataset.tcc, lines 46-54): the loop starts from the
empty container, whose `_maxExampleSize` is zero (its initial value is declared in
`Dataset.h`; the data model has it zero for no rows). -/
def ofIterator (dataSize : α → Nat) (it : DatasetExampleIterator γ α) : Outcome (Dataset α) :=
  drain dataSize it ⟨[], 0⟩

/-! ### Randomized reordering -/

/-- The contract of drawing from `std::uniform_int_distribution<size_t> dist(a, b)` with a
generator whose state has type `G`: for `a ≤ b` the value drawn lies in the closed interval
`[a, b]`; the generator moves to a new state. Every theorem about the randomized operations
is stated for an arbitrary engine, that is for every generator and every sequence of draws. -/
structure UniformIntEngine (G : Type) where
  draw : Nat → Nat → G → Nat × G
  draw_mem : ∀ a b g, a ≤ b → a ≤ (draw a b g).1 ∧ (draw a b g).1 ≤ b

/-- The exchange `swap(_examples[i], _examples[j])`; `none` when an index is outside storage. -/
def swapExamples (l : List α) (i j : Nat) : Option (List α) :=
  match l[i]?, l[j]? with
  | some a, some b => some ((l.set i b).set j a)
  | _, _ => none

/-- `Dataset::RandomSwap` (Dataset.tcc, lines 134-147). -/
def RandomSwap (E : UniformIntEngine G) (d : Dataset α) (rng : G)
    (targetExampleIndex rangeFirstIndex rangeSize : Nat) : Outcome (Dataset α × G) :=
  let rangeSize := d.CorrectRangeSize rangeFirstIndex rangeSize
  if targetExampleIndex > d.examples.length then
    .thrown .indexOutOfRange (d, rng)
  else
    let a := rangeFirstIndex
    let b := wrapSub (wrapAdd rangeFirstIndex rangeSize) 1
    if a ≤ b then
      let r := E.draw a b rng
      match swapExamples d.examples targetExampleIndex r.1 with
      | some l => .ok (⟨l, d.maxExampleSize⟩, r.2)
      | none => .undefined
    else
      .undefined

/-- The `for` loop of `RandomPermute(rng, prefixSize)`: `count` iterations remain and the
loop variable is `i`. -/
def permuteLoop (E : UniformIntEngine G) :
    (count i : Nat) → Dataset α → G → Outcome (Dataset α × G)
  | 0, _, d, rng => .ok (d, rng)
  | count + 1, i, d, rng =>
    match RandomSwap E d rng i i (wrapSub d.examples.length i) with
    | .ok s => permuteLoop E count (i + 1) s.1 s.2
    | .thrown e s => .thrown e s
    | .undefined => .undefined

/-- `Dataset::RandomPermute(rng, prefixSize)` (Dataset.tcc, lines 107-115). -/
def RandomPermute (E : UniformIntEngine G) (d : Dataset α) (rng : G) (prefixSize : Nat) :
    Outcome (Dataset α × G) :=
  let prefixSize := d.CorrectRangeSize 0 prefixSize
  permuteLoop E prefixSize 0 d rng

/-- The `for` loop of `RandomPermute(rng, rangeFirstIndex, rangeSize, prefixSize)`: `count`
iterations remain and the loop variable is `s`. -/
def permuteRangeLoop (E : UniformIntEngine G) (rangeFirstIndex rangeSize : Nat) :
    (count s : Nat) → Dataset α → G → Outcome (Dataset α × G)
  | 0, _, d, rng => .ok (d, rng)
  | count + 1, s, d, rng =>
    let index := wrapAdd rangeFirstIndex s
    match RandomSwap E d rng index index (wrapSub rangeSize s) with
    | .ok st => permuteRangeLoop E rangeFirstIndex rangeSize count (s + 1) st.1 st.2
    | .thrown e st => .thrown e st
    | .undefined => .undefined

/-- `Dataset::RandomPermute(rng, rangeFirstIndex, rangeSize, prefixSize)`
(Dataset.tcc, lines 117-132). -/
def RandomPermuteRange (E : UniformIntEngine G) (d : Dataset α) (rng : G)
    (rangeFirstIndex rangeSize prefixSize : Nat) : Outcome (Dataset α × G) :=
  let rangeSize := d.CorrectRangeSize rangeFirstIndex rangeSize
  let prefixSize := if prefixSize > rangeSize ∨ prefixSize = 0 then rangeSize else prefixSize
  permuteRangeLoop E rangeFirstIndex rangeSize prefixSize 0 d rng

/-! ### Sorting and partitioning -/

/-- The requirement `std::sort` puts on its comparator: a strict weak ordering. -/
structure StrictWeakOrdering (comp : α → α → Bool) : Prop where
  irrefl : ∀ a, comp a a = false
  trans : ∀ a b c, comp a b = true → comp b c = true → comp a c = true
  incomp_trans : ∀ a b c, comp a b = false → comp b a = false → comp b c = false →
    comp c b = false → comp a c = false ∧ comp c a = false

/-- The contract of `std::sort(first, last, comp)` on the rows of `[first, last)`: for a
strict weak ordering the rows are rearranged (`perm`) so that no later row compares before
an earlier one (`sorted`). Nothing is promised about rows that compare equivalent. -/
structure StdSort (α : Type) where
  sort : (α → α → Bool) → List α → List α
  perm : ∀ comp l, StrictWeakOrdering comp → (sort comp l).Perm l
  sorted : ∀ comp l, StrictWeakOrdering comp →
    (sort comp l).Pairwise (fun a b => comp b a = false)

/-- The contract of `std::partition(first, last, pred)` on the rows of `[first, last)`: the
rows are rearranged (`perm`) so that those satisfying `pred` come first; `boundary` is the
returned partition point. -/
structure StdPartition (α : Type) where
  partition : (α → Bool) → List α → List α
  boundary : (α → Bool) → List α → Nat
  perm : ∀ pred l, (partition pred l).Perm l
  boundary_le : ∀ pred l, boundary pred l ≤ l.length
  front : ∀ pred l, ∀ x ∈ (partition pred l).take (boundary pred l), pred x = true
  back : ∀ pred l, ∀ x ∈ (partition pred l).drop (boundary pred l), pred x = false

/-- `Dataset::Sort` (Dataset.tcc, lines 149-160); `Sort` alone is a reserved word here.
`std::sort` requires `[first, last)` to be a range of the storage: `first` not after
`last`. -/
def SortRange [LinearOrder κ] (S : StdSort α) (sortKey : α → κ) (d : Dataset α)
    (fromRowIndex size : Nat) : Outcome (Dataset α) :=
  let size := d.CorrectRangeSize fromRowIndex size
  match d.iteratorRange fromRowIndex size with
  | some (first, last) =>
    if first ≤ last then
      .ok ⟨d.examples.take first
            ++ S.sort (fun a b => decide (sortKey a < sortKey b))
                ((d.examples.drop first).take (last - first))
            ++ d.examples.drop last,
          d.maxExampleSize⟩
    else
      .undefined
  | none => .undefined

/-- `Dataset::Partition` (Dataset.tcc, lines 162-168). `std::partition` requires
`[first, last)` to be a range of the storage: `first` not after `last`. -/
def Partition (P : StdPartition α) (partitionKey : α → Bool) (d : Dataset α)
    (fromRowIndex size : Nat) : Outcome (Dataset α) :=
  let size := d.CorrectRangeSize fromRowIndex size
  match d.iteratorRange fromRowIndex size with
  | some (first, last) =>
    if first ≤ last then
      .ok ⟨d.examples.take first
            ++ P.partition partitionKey ((d.examples.drop first).take (last - first))
            ++ d.examples.drop last,
          d.maxExampleSize⟩
    else
      .undefined
  | none => .undefined

/-! ### Printing -/

/-- The `for` loop of `Dataset::Print` (Dataset.tcc, lines 175-180) with loop variable
`index` and loop bound `bound`; `os` is the text written so far and `printRow` the row
type's own `Print`. Each iteration first builds `std::string(tabs * 4, ' ')`, whose
constructor leaves with `std::length_error` when the count is above `max_size()`, before
anything is written for the row; `maxSize` is that constant of the standard library. -/
def printLoop (printRow : α → List Char) (maxSize : Nat) (d : Dataset α)
    (tabs bound index : Nat) (os : List Char) : PrintOutcome :=
  if index < bound then
    if wrapMul tabs 4 ≤ maxSize then
      match d.examples[index]? with
      | some ex =>
        printLoop printRow maxSize d tabs bound (index + 1)
          (os ++ List.replicate (wrapMul tabs 4) ' ' ++ printRow ex ++ ['\n'])
      | none => .undefined
    else
      .lengthError os
  else
    .written os
termination_by bound - index

/-- `Dataset::Print` (Dataset.tcc, lines 170-181); `maxSize` is `std::string::max_size()`. -/
def Print (printRow : α → List Char) (maxSize : Nat) (d : Dataset α) (os : List Char)
    (tabs fromRowIndex size : Nat) : PrintOutcome :=
  let size := d.CorrectRangeSize fromRowIndex size
  printLoop printRow maxSize d tabs (wrapAdd fromRowIndex size) fromRowIndex os

end Dataset

/-- `MakeDataset` (Dataset.tcc, lines 183-187). -/
def MakeDataset {α γ : Type} (dataSize : α → Nat) (iterator : Dataset.DatasetExampleIterator γ α) :
    Outcome (Dataset α) :=
  Dataset.ofIterator dataSize iterator

/-! ## Concrete instances of the library contracts -/

/-- A generator that replays a prescribed list of draws: `dist(a, b)` returns the next value
of the list when it lies in `[a, b]`, and `a` otherwise (also when the list is used up). -/
def scriptedEngine : Dataset.UniformIntEngine (List Nat) where
  draw a b g :=
    match g with
    | [] => (a, [])
    | j :: rest => (if a ≤ j ∧ j ≤ b then j else a, rest)
  draw_mem := by
    intro a b g hab
    cases g with
    | nil => exact ⟨Nat.le_refl a, hab⟩
    | cons j rest =>
      by_cases h : a ≤ j ∧ j ≤ b
      · simp only [if_pos h]
        exact h
      · simp only [if_neg h]
        exact ⟨Nat.le_refl a, hab⟩

/-- An implementation of the `std::sort` contract: insertion sort along "does not compare
after". -/
def insertionStdSort (α : Type) : Dataset.StdSort α where
  sort comp l := l.insertionSort (fun a b => comp b a = false)
  perm := fun comp l _ => List.perm_insertionSort (fun a b => comp b a = false) l
  sorted := by
    intro comp l h
    haveI : IsTotal α (fun a b => comp b a = false) := by
      constructor
      intro a b
      cases hba : comp b a with
      | false => exact Or.inl rfl
      | true =>
        cases hab : comp a b with
        | false => exact Or.inr rfl
        | true =>
          have := h.trans a b a hab hba
          rw [h.irrefl a] at this
          exact absurd this (by decide)
    haveI : IsTrans α (fun a b => comp b a = false) := by
      constructor
      intro a b c hba hcb
      show comp c a = false
      cases hca : comp c a with
      | false => rfl
      | true =>
        cases hab : comp a b with
        | true =>
          have := h.trans c a b hca hab
          rw [hcb] at this
          exact absurd this (by decide)
        | false =>
          cases hbc : comp b c with
          | true =>
            have := h.trans b c a hbc hca
            rw [hba] at this
            exact absurd this (by decide)
          | false =>
            have := (h.incomp_trans a b c hab hba hbc hcb).2
            rw [hca] at this
            exact absurd this (by decide)
    exact List.sorted_insertionSort (fun a b => comp b a = false) l

/-- An implementation of the `std::partition` contract: the rows satisfying the predicate,
then the others. -/
def filterStdPartition (α : Type) : Dataset.StdPartition α where
  partition pred l := l.filter pred ++ l.filter (fun x => !pred x)
  boundary pred l := (l.filter pred).length
  perm := fun pred l => List.filter_append_perm pred l
  boundary_le := fun pred l => List.length_filter_le pred l
  front := by
    intro pred l x hx
    rw [List.take_left] at hx
    exact (List.mem_filter.mp hx).2
  back := by
    intro pred l x hx
    rw [List.drop_left] at hx
    simpa using (List.mem_filter.mp hx).2

/-! ## Notions used to state the properties of the shuffle -/

/-- The rows left by the exchanges of positions `i, i + 1, ...` with the drawn positions
`js`, in this order; an exchange outside storage stops the sequence. -/
def shuffleFrom {α : Type} : Nat → List Nat → List α → List α
  | _, [], l => l
  | i, j :: js, l =>
    match Dataset.swapExamples l i j with
    | some l' => shuffleFrom (i + 1) js l'
    | none => l

/-- A draw sequence `(j_0, ..., j_{p-1})` for an `N`-row container, shifted by `i`: the
`m`-th draw lies in `[i + m, N - 1]`. -/
def ValidDrawsFrom (N i : Nat) (js : List Nat) : Prop :=
  ∀ m j, js[m]? = some j → i + m ≤ j ∧ j ≤ N - 1

/-- The draw sequences `(j_0, ..., j_{p-1})` with `j_i` in `[i, N - 1]`. -/
def ValidDraws (N p : Nat) (js : List Nat) : Prop :=
  js.length = p ∧ ValidDrawsFrom N 0 js

/-- The ordered selections of `p` distinct rows of `rows`. -/
def IsOrderedSelection {α : Type} (rows : List α) (p : Nat) (t : List α) : Prop :=
  t.length = p ∧ t.Nodup ∧ ∀ x ∈ t, x ∈ rows

/-- The first `p` rows after `RandomPermute(rng, p)` when the generator replays the draws
`js` (the empty list if the call does not return normally). -/
def permutedPrefix {α : Type} (d : Dataset α) (p : Nat) (js : List Nat) : List α :=
  match Dataset.RandomPermute scriptedEngine d js p with
  | .ok s => s.1.examples.take p
  | _ => []

/-! ## Notions used to state the properties of construction and iteration -/

/-- The maximum feature-vector length over the rows `l`, zero for no rows. -/
def maxDataSize {α : Type} (dataSize : α → Nat) (l : List α) : Nat :=
  (l.map dataSize).foldr max 0

/-- The invariant of the data model: `_maxExampleSize` is the maximum feature-vector length
over the stored rows, or zero when the container is empty. -/
def MaxSizeInvariant {α : Type} (dataSize : α → Nat) (d : Dataset α) : Prop :=
  d.maxExampleSize = maxDataSize dataSize d.examples

/-! ## Notions used to state the agreement of the two shuffles -/

/-- A generator that behaves as `E` and also records, in order, every interval `(a, b)` from
which a draw is requested. -/
def loggingEngine {G : Type} (E : Dataset.UniformIntEngine G) :
    Dataset.UniformIntEngine (G × List (Nat × Nat)) where
  draw a b g := ((E.draw a b g.1).1, ((E.draw a b g.1).2, g.2 ++ [(a, b)]))
  draw_mem := fun a b g h => E.draw_mem a b g.1 h

/-! ## Reachable containers -/

/-- The containers reachable from the empty container by `AddExample`, `Reset`, construction
from a sequence, `RandomSwap`, the two `RandomPermute`, `Sort` and `Partition`. An operation
that leaves with an exception leaves the container as it was at the throw, which is
reachable as well. -/
inductive Reachable {α : Type} (dataSize : α → Nat) : Dataset α → Prop where
  | empty : Reachable dataSize ⟨[], 0⟩
  | addExample (d : Dataset α) (ex : α) :
      Reachable dataSize d → Reachable dataSize (Dataset.AddExample dataSize d ex)
  | reset (d : Dataset α) : Reachable dataSize d → Reachable dataSize (Dataset.Reset d)
  | construct {γ : Type} (it : Dataset.DatasetExampleIterator γ α) (d' : Dataset α) :
      Dataset.ofIterator dataSize it = .ok d' → Reachable dataSize d'
  | randomSwap {G : Type} (E : Dataset.UniformIntEngine G) (d : Dataset α) (rng : G)
      (targetIndex rangeFirst rangeSize : Nat) (d' : Dataset α) (rng' : G) :
      Reachable dataSize d →
      Dataset.RandomSwap E d rng targetIndex rangeFirst rangeSize = .ok (d', rng') →
      Reachable dataSize d'
  | randomSwapThrown {G : Type} (E : Dataset.UniformIntEngine G) (d : Dataset α) (rng : G)
      (targetIndex rangeFirst rangeSize : Nat) (e : InputExceptionErrors) (d' : Dataset α)
      (rng' : G) :
      Reachable dataSize d →
      Dataset.RandomSwap E d rng targetIndex rangeFirst rangeSize = .thrown e (d', rng') →
      Reachable dataSize d'
  | randomPermute {G : Type} (E : Dataset.UniformIntEngine G) (d : Dataset α) (rng : G)
      (prefixSize : Nat) (d' : Dataset α) (rng' : G) :
      Reachable dataSize d →
      Dataset.RandomPermute E d rng prefixSize = .ok (d', rng') →
      Reachable dataSize d'
  | randomPermuteThrown {G : Type} (E : Dataset.UniformIntEngine G) (d : Dataset α) (rng : G)
      (prefixSize : Nat) (e : InputExceptionErrors) (d' : Dataset α) (rng' : G) :
      Reachable dataSize d →
      Dataset.RandomPermute E d rng prefixSize = .thrown e (d', rng') →
      Reachable dataSize d'
  | randomPermuteRange {G : Type} (E : Dataset.UniformIntEngine G) (d : Dataset α) (rng : G)
      (rangeFirst rangeSize prefixSize : Nat) (d' : Dataset α) (rng' : G) :
      Reachable dataSize d →
      Dataset.RandomPermuteRange E d rng rangeFirst rangeSize prefixSize = .ok (d', rng') →
      Reachable dataSize d'
  | randomPermuteRangeThrown {G : Type} (E : Dataset.UniformIntEngine G) (d : Dataset α)
      (rng : G) (rangeFirst rangeSize prefixSize : Nat) (e : InputExceptionErrors)
      (d' : Dataset α) (rng' : G) :
      Reachable dataSize d →
      Dataset.RandomPermuteRange E d rng rangeFirst rangeSize prefixSize =
        .thrown e (d', rng') →
      Reachable dataSize d'
  | sort {κ : Type} [LinearOrder κ] (S : Dataset.StdSort α) (sortKey : α → κ) (d : Dataset α)
      (fromIndex size : Nat) (d' : Dataset α) :
      Reachable dataSize d → Dataset.SortRange S sortKey d fromIndex size = .ok d' →
      Reachable dataSize d'
  | partition (P : Dataset.StdPartition α) (pred : α → Bool) (d : Dataset α)
      (fromIndex size : Nat) (d' : Dataset α) :
      Reachable dataSize d → Dataset.Partition P pred d fromIndex size = .ok d' →
      Reachable dataSize d'

/-! ## Printing the whole container, and the claimed text -/

/-- Modelled from the spec: `operator<<` (Dataset.tcc, lines 189-194) calls
`dataset.Print(os)`; the default arguments of `Print` are declared in the header
`Dataset.h` and are taken to be `tabs = 0`, `fromRowIndex = 0`, `size = 0`, the dump of the
whole container without indentation. -/
def operatorOut {α : Type} (printRow : α → List Char) (maxSize : Nat) (os : List Char)
    (dataset : Dataset α) : PrintOutcome :=
  Dataset.Print printRow maxSize dataset os 0 0 0

/-- One line of the dump: `indent` space characters, the printable form of the row, a
newline. -/
def printedLine {α : Type} (printRow : α → List Char) (indent : Nat) (ex : α) : List Char :=
  List.replicate indent ' ' ++ printRow ex ++ ['\n']

/-- The text of the dump of `rows`: one line per row, in order, nothing else. -/
def printedText {α : Type} (printRow : α → List Char) (indent : Nat) (rows : List α) :
    List Char :=
  (rows.map (printedLine printRow indent)).flatten

/-! ## The type-erased view -/

/-- The abstract reference `IDataset&` held by the view: a reference to one of the two
enumerated concrete containers, `Dataset<AutoSupervisedExample>` (rows of type `A`) or
`Dataset<DenseSupervisedExample>` (rows of type `D`). -/
inductive IDataset (A D : Type) where
  | autoSupervised (dataset : Dataset A)
  | denseSupervised (dataset : Dataset D)

/-- The type-erased sequence `ExampleIterator<U>`: it wraps the iterator of the concrete
container it was made from. -/
inductive ExampleIterator (A D U : Type) where
  | overAuto (it : Dataset.DatasetExampleIterator A U)
  | overDense (it : Dataset.DatasetExampleIterator D U)

/-- The data members of `GetIteratorAbstractor<IteratorExampleType>`, set by its constructor
(Dataset.tcc, lines 23-25). -/
structure GetIteratorAbstractor where
  fromIndex : Nat
  size : Nat

/-- `GetIteratorAbstractor::operator()` (Dataset.tcc, lines 27-32), on a concrete container
with rows of type `α`. -/
def GetIteratorAbstractor.call {α U : Type} (convert : α → U)
    (abstractor : GetIteratorAbstractor) (dataset : Dataset α) :
    Outcome (Dataset.DatasetExampleIterator α U) :=
  Dataset.GetIterator convert dataset abstractor.fromIndex abstractor.size

/-- The data members of `AnyDataset`: the abstract reference and the row range. -/
structure AnyDataset (A D : Type) where
  pDataset : IDataset A D
  fromIndex : Nat
  size : Nat

/-- Modelled from the spec: `utilities::AbstractInvoker<IDataset, Dataset<AutoSupervisedExample>,
Dataset<DenseSupervisedExample>>::Invoke`, which is not among the sources. The resolver
determines, among the closed enumeration of concrete container types, which one the
abstract reference is, and invokes the descriptor against that concrete instance;
`onAuto` and `onDense` are the descriptor at the two concrete types. -/
def AbstractInvoker.Invoke {A D ρ : Type} (onAuto : Dataset A → ρ) (onDense : Dataset D → ρ) :
    IDataset A D → ρ
  | .autoSupervised dataset => onAuto dataset
  | .denseSupervised dataset => onDense dataset

/-- An outcome with the function `f` applied to the value it carries. -/
def Outcome.map {σ τ : Type} (f : σ → τ) : Outcome σ → Outcome τ
  | .ok s => .ok (f s)
  | .thrown e s => .thrown e (f s)
  | .undefined => .undefined

/-- `AnyDataset::GetIterator<ExampleType>` (Dataset.tcc, lines 34-39); `convertAuto` and
`convertDense` are the conversions of the two stored row types to `ExampleType`. -/
def AnyDataset.GetIterator {A D U : Type} (convertAuto : A → U) (convertDense : D → U)
    (view : AnyDataset A D) : Outcome (ExampleIterator A D U) :=
  let abstractor : GetIteratorAbstractor := ⟨view.fromIndex, view.size⟩
  AbstractInvoker.Invoke
    (fun dataset => (abstractor.call convertAuto dataset).map ExampleIterator.overAuto)
    (fun dataset => (abstractor.call convertDense dataset).map ExampleIterator.overDense)
    view.pDataset

/-! ## Arithmetic facts -/

theorem wrapAdd_of_lt {a b : Nat} (h : a + b < 2 ^ 64) : wrapAdd a b = a + b := by
  unfold wrapAdd
  exact Nat.mod_eq_of_lt h

theorem wrapSub_of_le {a b : Nat} (hb : b ≤ a) (ha : a < 2 ^ 64) : wrapSub a b = a - b := by
  unfold wrapSub
  have hb' : b % 2 ^ 64 = b := Nat.mod_eq_of_lt (by omega)
  rw [hb']
  omega

namespace Dataset

variable {α β γ κ G : Type}

/-- C1: on a container of `N` rows, for `fromIndex ≤ N` and a `size` whose sum with
`fromIndex` does not overflow `size_t`, `CorrectRangeSize` returns `N - fromIndex` when
`size = 0` or `fromIndex + size > N`, and `size` unchanged otherwise. -/
theorem CorrectRangeSize_contract (d : Dataset α) (fromIndex size : Nat)
    (hN : d.examples.length < 2 ^ 64) (hfrom : fromIndex ≤ d.examples.length)
    (hno : fromIndex + size < 2 ^ 64) :
    d.CorrectRangeSize fromIndex size =
      if size = 0 ∨ fromIndex + size > d.examples.length then d.examples.length - fromIndex
      else size := by
  unfold CorrectRangeSize
  rw [wrapAdd_of_lt hno, wrapSub_of_le hfrom hN]

/-- Witness for C1 on a three-row container: a size running past the end is cut to the
rows that remain. -/
theorem CorrectRangeSize_contract_witness :
    (([10, 20, 30] : List Nat).length < 2 ^ 64 ∧ 1 ≤ ([10, 20, 30] : List Nat).length ∧
        1 + 5 < 2 ^ 64) ∧
      (Dataset.mk [10, 20, 30] 0).CorrectRangeSize 1 5 =
        if 5 = 0 ∨ 1 + 5 > ([10, 20, 30] : List Nat).length then
          ([10, 20, 30] : List Nat).length - 1
        else 5 :=
  ⟨by decide, CorrectRangeSize_contract (Dataset.mk [10, 20, 30] 0) 1 5 (by decide) (by decide)
    (by decide)⟩

/-! ### The exchange of two rows -/

theorem swapExamples_of_lt (l : List α) {i j : Nat} (hi : i < l.length) (hj : j < l.length) :
    swapExamples l i j = some ((l.set i l[j]).set j l[i]) := by
  unfold swapExamples
  rw [List.getElem?_eq_getElem hi, List.getElem?_eq_getElem hj]

theorem cons_set_perm (t : List α) (x : α) :
    ∀ (j : Nat) (h : j < t.length), (t[j] :: t.set j x).Perm (x :: t) := by
  induction t with
  | nil => intro j h; simp at h
  | cons y t ih =>
    intro j h
    cases j with
    | zero => simpa using List.Perm.swap x y t
    | succ j =>
      have hj : j < t.length := by simpa using h
      have h1 : (t[j] :: y :: t.set j x).Perm (y :: t[j] :: t.set j x) := List.Perm.swap _ _ _
      have h2 : (y :: t[j] :: t.set j x).Perm (y :: x :: t) := (ih j hj).cons y
      have h3 : (y :: x :: t).Perm (x :: y :: t) := List.Perm.swap _ _ _
      simpa using (h1.trans h2).trans h3

theorem set_set_perm (l : List α) :
    ∀ (i j : Nat) (hi : i < l.length) (hj : j < l.length),
      ((l.set i l[j]).set j l[i]).Perm l := by
  induction l with
  | nil => intro i j hi; simp at hi
  | cons x t ih =>
    intro i j hi hj
    cases i with
    | zero =>
      cases j with
      | zero => simp
      | succ j =>
        have hj' : j < t.length := by simpa using hj
        simpa using cons_set_perm t x j hj'
    | succ i =>
      have hi' : i < t.length := by simpa using hi
      cases j with
      | zero => simpa using cons_set_perm t x i hi'
      | succ j =>
        have hj' : j < t.length := by simpa using hj
        simpa using (ih i j hi' hj').cons x

theorem swapExamples_perm {l l' : List α} {i j : Nat} (h : swapExamples l i j = some l') :
    l'.Perm l := by
  unfold swapExamples at h
  by_cases hi : i < l.length
  · by_cases hj : j < l.length
    · rw [List.getElem?_eq_getElem hi, List.getElem?_eq_getElem hj] at h
      simp only [Option.some.injEq] at h
      rw [← h]
      exact set_set_perm l i j hi hj
    · have hn : l[j]? = none := List.getElem?_eq_none (by omega)
      rw [hn] at h
      simp at h
  · have hn : l[i]? = none := List.getElem?_eq_none (by omega)
    rw [hn] at h
    simp at h

/-! ### One step of the shuffle -/

theorem CorrectRangeSize_rest (d : Dataset α) {i : Nat} (hN : d.examples.length < 2 ^ 64)
    (hi : i < d.examples.length) :
    d.CorrectRangeSize i (wrapSub d.examples.length i) = d.examples.length - i := by
  rw [wrapSub_of_le (by omega) hN]
  unfold CorrectRangeSize
  rw [wrapAdd_of_lt (by omega)]
  have h1 : ¬ (d.examples.length - i = 0 ∨ i + (d.examples.length - i) > d.examples.length) := by
    omega
  rw [if_neg h1]

theorem RandomSwap_step (E : UniformIntEngine G) (d : Dataset α) (rng : G) {i : Nat}
    (hN : d.examples.length < 2 ^ 64) (hi : i < d.examples.length) :
    ∃ l, swapExamples d.examples i (E.draw i (d.examples.length - 1) rng).1 = some l ∧
      RandomSwap E d rng i i (wrapSub d.examples.length i) =
        .ok (⟨l, d.maxExampleSize⟩, (E.draw i (d.examples.length - 1) rng).2) := by
  have hb : wrapSub (wrapAdd i (d.examples.length - i)) 1 = d.examples.length - 1 := by
    rw [wrapAdd_of_lt (by omega), wrapSub_of_le (by omega) (by omega)]
    omega
  have hmem := E.draw_mem i (d.examples.length - 1) rng (by omega)
  have hj : (E.draw i (d.examples.length - 1) rng).1 < d.examples.length := by omega
  refine ⟨_, swapExamples_of_lt d.examples hi hj, ?_⟩
  unfold RandomSwap
  simp only [CorrectRangeSize_rest d hN hi, hb]
  rw [if_neg (by omega), if_pos (by omega), swapExamples_of_lt d.examples hi hj]

/-! ### The shuffle loop -/

theorem permuteLoop_perm (E : UniformIntEngine G) :
    ∀ (count i : Nat) (d : Dataset α) (rng : G), d.examples.length < 2 ^ 64 →
      i + count ≤ d.examples.length →
      ∃ d' rng', permuteLoop E count i d rng = .ok (d', rng') ∧
        d'.examples.Perm d.examples ∧ d'.maxExampleSize = d.maxExampleSize := by
  intro count
  induction count with
  | zero =>
    intro i d rng _ _
    exact ⟨d, rng, rfl, List.Perm.refl _, rfl⟩
  | succ count ih =>
    intro i d rng hN hle
    obtain ⟨l, hl, hstep⟩ := RandomSwap_step E d rng hN (show i < d.examples.length by omega)
    have hperm : l.Perm d.examples := swapExamples_perm hl
    have hlen : l.length = d.examples.length := hperm.length_eq
    obtain ⟨d', rng', hrun, hp, hm⟩ :=
      ih (i + 1) ⟨l, d.maxExampleSize⟩ (E.draw i (d.examples.length - 1) rng).2
        (by simpa [hlen] using hN) (by simp only [hlen]; omega)
    refine ⟨d', rng', ?_, hp.trans hperm, hm⟩
    simp only [permuteLoop, hstep]
    exact hrun

theorem CorrectRangeSize_zero_le (d : Dataset α) (size : Nat)
    (hN : d.examples.length < 2 ^ 64) (hs : size < 2 ^ 64) :
    d.CorrectRangeSize 0 size ≤ d.examples.length := by
  unfold CorrectRangeSize
  rw [wrapAdd_of_lt (by omega), wrapSub_of_le (Nat.zero_le _) hN]
  split <;> omega

/-- C2: `RandomPermute(rng, prefixSize)` on an `N`-row container, for every generator,
every generator state and every `prefixSize ≤ N` (zero included, meaning the whole
container), returns normally and leaves a container whose rows are a rearrangement of the
rows before: same multiset, same row count. -/
theorem RandomPermute_is_permutation (E : UniformIntEngine G) (d : Dataset α) (rng : G)
    (prefixSize : Nat) (hN : d.examples.length < 2 ^ 64)
    (hp : prefixSize ≤ d.examples.length) :
    ∃ d' rng', RandomPermute E d rng prefixSize = .ok (d', rng') ∧
      d'.examples.Perm d.examples ∧ d'.examples.length = d.examples.length := by
  have hc : d.CorrectRangeSize 0 prefixSize ≤ d.examples.length :=
    CorrectRangeSize_zero_le d prefixSize hN (by omega)
  obtain ⟨d', rng', hrun, hperm, _⟩ :=
    permuteLoop_perm E (d.CorrectRangeSize 0 prefixSize) 0 d rng hN (by omega)
  exact ⟨d', rng', hrun, hperm, hperm.length_eq⟩

/-- C3: `RandomSwap` leaves with the index-out-of-range error exactly when
`targetIndex > N`, it throws nothing else, and the state the exception leaves behind is the
container (and generator state) from before the call. -/
theorem RandomSwap_throws_iff (E : UniformIntEngine G) (d : Dataset α) (rng : G)
    (targetIndex rangeFirst rangeSize : Nat) :
    ((∃ s, RandomSwap E d rng targetIndex rangeFirst rangeSize = .thrown .indexOutOfRange s) ↔
        targetIndex > d.examples.length) ∧
      (∀ e s, RandomSwap E d rng targetIndex rangeFirst rangeSize = .thrown e s →
        e = .indexOutOfRange ∧ s = (d, rng)) := by
  unfold RandomSwap
  by_cases ht : targetIndex > d.examples.length
  · simp [ht]
  · simp only [if_neg ht]
    constructor
    · constructor
      · rintro ⟨s, hs⟩
        split at hs
        · split at hs <;> simp at hs
        · simp at hs
      · intro h; exact absurd h ht
    · intro e s hs
      split at hs
      · split at hs <;> simp at hs
      · simp at hs

/-- Witness for C2: a three-row container, the generator replaying the draws 2 and 1, and
`prefixSize = 2`. -/
theorem RandomPermute_is_permutation_witness :
    (([1, 2, 3] : List Nat).length < 2 ^ 64 ∧ 2 ≤ ([1, 2, 3] : List Nat).length) ∧
      ∃ d' rng', RandomPermute scriptedEngine (Dataset.mk [1, 2, 3] 0) [2, 1] 2 = .ok (d', rng') ∧
        d'.examples.Perm [1, 2, 3] ∧ d'.examples.length = ([1, 2, 3] : List Nat).length :=
  ⟨by decide,
    RandomPermute_is_permutation scriptedEngine (Dataset.mk [1, 2, 3] 0) [2, 1] 2 (by decide)
      (by decide)⟩

/-! ### Replacing a range of the storage -/

theorem replaceRange_length (l m : List α) (f s : Nat) (hfs : f + s ≤ l.length)
    (hm : m.length = s) : (l.take f ++ m ++ l.drop (f + s)).length = l.length := by
  simp only [List.length_append, List.length_take, List.length_drop, hm]
  omega

theorem replaceRange_inside (l m : List α) (f s : Nat) (hfs : f + s ≤ l.length)
    (hm : m.length = s) : ((l.take f ++ m ++ l.drop (f + s)).drop f).take s = m := by
  have hA : (l.take f).length = f := by rw [List.length_take]; omega
  rw [List.append_assoc]
  have h1 : (l.take f ++ (m ++ l.drop (f + s))).drop f = m ++ l.drop (f + s) := by
    conv => lhs; arg 1; rw [← hA]
    exact List.drop_left _ _
  rw [h1, ← hm]
  exact List.take_left _ _

theorem replaceRange_getElem?_inside (l m : List α) (f s : Nat) (hfs : f + s ≤ l.length)
    (hm : m.length = s) (k : Nat) (hk : k < s) :
    (l.take f ++ m ++ l.drop (f + s))[f + k]? = m[k]? := by
  have hA : (l.take f).length = f := by rw [List.length_take]; omega
  rw [List.append_assoc, List.getElem?_append_right (by omega), hA,
    List.getElem?_append_left (by omega)]
  congr 1
  omega

theorem replaceRange_getElem?_outside (l m : List α) (f s : Nat) (hfs : f + s ≤ l.length)
    (hm : m.length = s) (i : Nat) (hi : i < f ∨ f + s ≤ i) :
    (l.take f ++ m ++ l.drop (f + s))[i]? = l[i]? := by
  have hA : (l.take f).length = f := by rw [List.length_take]; omega
  rcases hi with hi | hi
  · rw [List.append_assoc, List.getElem?_append_left (by omega), List.getElem?_take_of_lt hi]
  · rw [List.getElem?_append_right (by simp only [List.length_append, hA, hm]; omega),
      List.getElem?_drop]
    simp only [List.length_append, hA, hm]
    congr 1
    omega

theorem length_range (l : List α) (f s : Nat) (hfs : f + s ≤ l.length) :
    ((l.drop f).take s).length = s := by
  rw [List.length_take, List.length_drop]
  omega

/-! ### Normalization without overflow -/

theorem CorrectRangeSize_in_range (d : Dataset α) (fromIndex size : Nat)
    (hN : d.examples.length < 2 ^ 64) (hfrom : fromIndex ≤ d.examples.length)
    (hno : fromIndex + size < 2 ^ 64) :
    fromIndex + d.CorrectRangeSize fromIndex size ≤ d.examples.length := by
  unfold CorrectRangeSize
  rw [wrapAdd_of_lt hno, wrapSub_of_le hfrom hN]
  split <;> omega

theorem toDifference_of_lt {n : Nat} (h : n < 2 ^ 63) : toDifference n = (n : Int) := by
  unfold toDifference
  rw [if_pos h]

theorem iteratorAdd_of_le {N pos n : Nat} (hN : N < 2 ^ 63) (h : pos + n ≤ N) :
    iteratorAdd N pos n = some (pos + n) := by
  unfold iteratorAdd
  rw [toDifference_of_lt (by omega)]
  have h2 : (0 : Int) ≤ (pos : Int) + (n : Int) ∧ (pos : Int) + (n : Int) ≤ (N : Int) := by
    omega
  simp only [h2, and_self, if_true]
  congr 1

theorem iteratorRange_in_range (d : Dataset α) {fromIndex s : Nat}
    (hN : d.examples.length < 2 ^ 63) (h : fromIndex + s ≤ d.examples.length) :
    d.iteratorRange fromIndex s = some (fromIndex, fromIndex + s) := by
  unfold iteratorRange
  rw [iteratorAdd_of_le hN (by omega), Nat.zero_add]
  simp only [iteratorAdd_of_le hN h]

/-! ### Sorting a range -/

theorem keyComparator_strictWeakOrdering [LinearOrder κ] (sortKey : α → κ) :
    StrictWeakOrdering (fun a b : α => decide (sortKey a < sortKey b)) where
  irrefl := by intro a; simp
  trans := by
    intro a b c hab hbc
    simp only [decide_eq_true_eq] at *
    exact lt_trans hab hbc
  incomp_trans := by
    intro a b c hab hba hbc hcb
    simp only [decide_eq_false_iff_not, not_lt] at *
    exact ⟨le_trans hbc hab, le_trans hba hcb⟩

/-- Sort correctness on every range whose end `fromIndex + size` does not overflow `size_t`:
`Sort` returns normally, the row count is unchanged, neighbouring rows inside the normalized
range are in ascending key order, the rows inside the range are a rearrangement of the rows
that were there, and every row outside the range is where it was. -/
theorem SortRange_in_range [LinearOrder κ] (S : StdSort α) (sortKey : α → κ) (d : Dataset α)
    (fromIndex size : Nat) (hN : d.examples.length < 2 ^ 63)
    (hfrom : fromIndex ≤ d.examples.length) (hno : fromIndex + size < 2 ^ 64) :
    ∃ d', SortRange S sortKey d fromIndex size = .ok d' ∧
      d'.examples.length = d.examples.length ∧
      d'.maxExampleSize = d.maxExampleSize ∧
      (∀ i a b, fromIndex ≤ i → i + 1 < fromIndex + d.CorrectRangeSize fromIndex size →
        d'.examples[i]? = some a → d'.examples[i + 1]? = some b → sortKey a ≤ sortKey b) ∧
      ((d'.examples.drop fromIndex).take (d.CorrectRangeSize fromIndex size)).Perm
        ((d.examples.drop fromIndex).take (d.CorrectRangeSize fromIndex size)) ∧
      (∀ i, i < fromIndex ∨ fromIndex + d.CorrectRangeSize fromIndex size ≤ i →
        d'.examples[i]? = d.examples[i]?) := by
  have hin := CorrectRangeSize_in_range d fromIndex size (by omega) hfrom hno
  generalize hs : d.CorrectRangeSize fromIndex size = s at hin
  have hswo := keyComparator_strictWeakOrdering sortKey
  have hperm := S.perm _ ((d.examples.drop fromIndex).take s) hswo
  have hsorted := S.sorted _ ((d.examples.drop fromIndex).take s) hswo
  have hm : (S.sort (fun a b => decide (sortKey a < sortKey b))
      ((d.examples.drop fromIndex).take s)).length = s := by
    rw [hperm.length_eq]
    exact length_range d.examples fromIndex s hin
  refine ⟨⟨d.examples.take fromIndex
      ++ S.sort (fun a b => decide (sortKey a < sortKey b)) ((d.examples.drop fromIndex).take s)
      ++ d.examples.drop (fromIndex + s), d.maxExampleSize⟩, ?_, ?_, rfl, ?_, ?_, ?_⟩
  · unfold SortRange
    simp only [hs, iteratorRange_in_range d hN hin]
    rw [if_pos (by omega), Nat.add_sub_cancel_left]
  · exact replaceRange_length _ _ _ _ hin hm
  · intro i a b hfi hi ha hb
    have e1 : i = fromIndex + (i - fromIndex) := by omega
    have e2 : i + 1 = fromIndex + (i - fromIndex + 1) := by omega
    rw [e1, replaceRange_getElem?_inside _ _ _ _ hin hm _ (by omega)] at ha
    rw [e2, replaceRange_getElem?_inside _ _ _ _ hin hm _ (by omega)] at hb
    rw [List.pairwise_iff_getElem] at hsorted
    have h1 : i - fromIndex < (S.sort (fun a b => decide (sortKey a < sortKey b))
        ((d.examples.drop fromIndex).take s)).length := by omega
    have h2 : i - fromIndex + 1 < (S.sort (fun a b => decide (sortKey a < sortKey b))
        ((d.examples.drop fromIndex).take s)).length := by omega
    have h := hsorted (i - fromIndex) (i - fromIndex + 1) h1 h2 (by omega)
    rw [List.getElem?_eq_getElem h1] at ha
    rw [List.getElem?_eq_getElem h2] at hb
    simp only [Option.some.injEq] at ha hb
    rw [ha, hb] at h
    simpa using h
  · rw [replaceRange_inside _ _ _ _ hin hm]
    exact hperm
  · intro i hi
    exact replaceRange_getElem?_outside _ _ _ _ hin hm i hi

/-- The end-to-end scenario of the specification: keys `[5, 3, 4]` at positions 1 to 3 of a
five-row container, sorted with `from = 1`, `size = 3`, become `[3, 4, 5]`; positions 0 and 4
keep their rows. -/
theorem SortRange_scenario :
    SortRange (insertionStdSort Nat) id (Dataset.mk [7, 5, 3, 4, 1] 0) 1 3 =
      .ok (Dataset.mk [7, 3, 4, 5, 1] 0) := by
  decide

/-- Witness for `SortRange_in_range` at the scenario of the specification. -/
theorem SortRange_in_range_witness :
    (([7, 5, 3, 4, 1] : List Nat).length < 2 ^ 63 ∧ 1 ≤ ([7, 5, 3, 4, 1] : List Nat).length ∧
        1 + 3 < 2 ^ 64) ∧
      ∃ d', SortRange (insertionStdSort Nat) id (Dataset.mk [7, 5, 3, 4, 1] 0) 1 3 = .ok d' ∧
        d'.examples.length = ([7, 5, 3, 4, 1] : List Nat).length :=
  ⟨by decide,
    (SortRange_in_range (insertionStdSort Nat) id (Dataset.mk [7, 5, 3, 4, 1] 0) 1 3 (by decide)
      (by decide) (by decide)).imp fun _ h => ⟨h.1, h.2.1⟩⟩

/-- C4 (failing input): on a five-row container `Sort(key, 3, 2^64 - 1)` computes
`3 + (2^64 - 1)` with wrap-around as `2`, which is not above the row count, so
`CorrectRangeSize` hands the size back unnormalized; `begin() + 3 + (2^64 - 1)` is the
position 2, and `std::sort` is called on `[begin() + 3, begin() + 2)`, which is no range: the
call has no defined result, whereas rows 3 and 4 were to be sorted. -/
theorem SortRange_overflow_undefined :
    (Dataset.mk [1, 5, 3, 4, 9] 0).CorrectRangeSize 3 (2 ^ 64 - 1) = 2 ^ 64 - 1 ∧
      (Dataset.mk [1, 5, 3, 4, 9] 0).iteratorRange 3 (2 ^ 64 - 1) = some (3, 2) ∧
      SortRange (insertionStdSort Nat) id (Dataset.mk [1, 5, 3, 4, 9] 0) 3 (2 ^ 64 - 1) =
        .undefined := by
  decide

/-! ### Partitioning a range -/

/-- Partition correctness on every range whose end `fromIndex + size` does not overflow
`size_t`: `Partition` returns normally, the row count is unchanged, there is a boundary `b`
in the normalized range with every row of `[fromIndex, b)` satisfying the predicate and
every row of `[b, fromIndex + size)` not satisfying it, the rows inside the range are a
rearrangement of the rows that were there, and every row outside the range is where it
was. -/
theorem Partition_in_range (P : StdPartition α) (pred : α → Bool) (d : Dataset α)
    (fromIndex size : Nat) (hN : d.examples.length < 2 ^ 63)
    (hfrom : fromIndex ≤ d.examples.length) (hno : fromIndex + size < 2 ^ 64) :
    ∃ d', Partition P pred d fromIndex size = .ok d' ∧
      d'.examples.length = d.examples.length ∧
      d'.maxExampleSize = d.maxExampleSize ∧
      (∃ b, fromIndex ≤ b ∧ b ≤ fromIndex + d.CorrectRangeSize fromIndex size ∧
        (∀ i a, fromIndex ≤ i → i < b → d'.examples[i]? = some a → pred a = true) ∧
        (∀ i a, b ≤ i → i < fromIndex + d.CorrectRangeSize fromIndex size →
          d'.examples[i]? = some a → pred a = false)) ∧
      ((d'.examples.drop fromIndex).take (d.CorrectRangeSize fromIndex size)).Perm
        ((d.examples.drop fromIndex).take (d.CorrectRangeSize fromIndex size)) ∧
      (∀ i, i < fromIndex ∨ fromIndex + d.CorrectRangeSize fromIndex size ≤ i →
        d'.examples[i]? = d.examples[i]?) := by
  have hin := CorrectRangeSize_in_range d fromIndex size (by omega) hfrom hno
  generalize hs : d.CorrectRangeSize fromIndex size = s at hin
  have hperm := P.perm pred ((d.examples.drop fromIndex).take s)
  have hlen := length_range d.examples fromIndex s hin
  have hm : (P.partition pred ((d.examples.drop fromIndex).take s)).length = s := by
    rw [hperm.length_eq]
    exact hlen
  have hb := P.boundary_le pred ((d.examples.drop fromIndex).take s)
  rw [hlen] at hb
  refine ⟨⟨d.examples.take fromIndex
      ++ P.partition pred ((d.examples.drop fromIndex).take s)
      ++ d.examples.drop (fromIndex + s), d.maxExampleSize⟩, ?_, ?_, rfl, ?_, ?_, ?_⟩
  · unfold Partition
    simp only [hs, iteratorRange_in_range d hN hin]
    rw [if_pos (by omega), Nat.add_sub_cancel_left]
  · exact replaceRange_length _ _ _ _ hin hm
  · refine ⟨fromIndex + P.boundary pred ((d.examples.drop fromIndex).take s), by omega,
      by omega, ?_, ?_⟩
    · intro i a hfi hi ha
      have e1 : i = fromIndex + (i - fromIndex) := by omega
      rw [e1, replaceRange_getElem?_inside _ _ _ _ hin hm _ (by omega)] at ha
      apply P.front pred ((d.examples.drop fromIndex).take s) a
      rw [List.mem_iff_getElem?]
      exact ⟨i - fromIndex, by rw [List.getElem?_take_of_lt (by omega)]; exact ha⟩
    · intro i a hbi hi ha
      have e1 : i = fromIndex + (i - fromIndex) := by omega
      rw [e1, replaceRange_getElem?_inside _ _ _ _ hin hm _ (by omega)] at ha
      apply P.back pred ((d.examples.drop fromIndex).take s) a
      rw [List.mem_iff_getElem?]
      refine ⟨i - fromIndex - P.boundary pred ((d.examples.drop fromIndex).take s), ?_⟩
      rw [List.getElem?_drop, ← ha]
      congr 1
      omega
  · rw [replaceRange_inside _ _ _ _ hin hm]
    exact hperm
  · intro i hi
    exact replaceRange_getElem?_outside _ _ _ _ hin hm i hi

/-- Witness for `Partition_in_range`: the even rows of positions 1 to 4 of a six-row
container are moved in front of the odd ones. -/
theorem Partition_in_range_witness :
    (([1, 3, 4, 5, 6, 7] : List Nat).length < 2 ^ 63 ∧
        1 ≤ ([1, 3, 4, 5, 6, 7] : List Nat).length ∧ 1 + 4 < 2 ^ 64) ∧
      ∃ d', Partition (filterStdPartition Nat) (fun n => n % 2 == 0)
          (Dataset.mk [1, 3, 4, 5, 6, 7] 0) 1 4 = .ok d' ∧
        d'.examples.length = ([1, 3, 4, 5, 6, 7] : List Nat).length :=
  ⟨by decide,
    (Partition_in_range (filterStdPartition Nat) (fun n => n % 2 == 0)
      (Dataset.mk [1, 3, 4, 5, 6, 7] 0) 1 4 (by decide) (by decide) (by decide)).imp
      fun _ h => ⟨h.1, h.2.1⟩⟩

/-- The partition of the witness, evaluated. -/
theorem Partition_scenario :
    Partition (filterStdPartition Nat) (fun n => n % 2 == 0)
        (Dataset.mk [1, 3, 4, 5, 6, 7] 0) 1 4 = .ok (Dataset.mk [1, 4, 6, 3, 5, 7] 0) := by
  decide

/-- C5 (failing input): on a five-row container `Partition(pred, 3, 2^64 - 1)` computes
`3 + (2^64 - 1)` with wrap-around as `2`, which is not above the row count, so
`CorrectRangeSize` hands the size back unnormalized; `begin() + 3 + (2^64 - 1)` is the
position 2, and `std::partition` is called on `[begin() + 3, begin() + 2)`, which is no
range: the call has no defined result, whereas rows 3 and 4 were to be partitioned. -/
theorem Partition_overflow_undefined :
    (Dataset.mk [1, 5, 3, 4, 9] 0).CorrectRangeSize 3 (2 ^ 64 - 1) = 2 ^ 64 - 1 ∧
      (Dataset.mk [1, 5, 3, 4, 9] 0).iteratorRange 3 (2 ^ 64 - 1) = some (3, 2) ∧
      Partition (filterStdPartition Nat) (fun n => n % 2 == 0) (Dataset.mk [1, 5, 3, 4, 9] 0) 3
        (2 ^ 64 - 1) = .undefined := by
  decide

/-! ### The shuffle as a sequence of exchanges -/

theorem swapExamples_some_lt {l l' : List α} {i j : Nat} (h : swapExamples l i j = some l') :
    i < l.length ∧ j < l.length := by
  unfold swapExamples at h
  by_cases hi : i < l.length
  · by_cases hj : j < l.length
    · exact ⟨hi, hj⟩
    · have hn : l[j]? = none := List.getElem?_eq_none (by omega)
      rw [hn] at h
      simp at h
  · have hn : l[i]? = none := List.getElem?_eq_none (by omega)
    rw [hn] at h
    simp at h

theorem swapExamples_getElem? {l l' : List α} {i j : Nat} (h : swapExamples l i j = some l')
    (k : Nat) : l'[k]? = if k = j then l[i]? else if k = i then l[j]? else l[k]? := by
  obtain ⟨hi, hj⟩ := swapExamples_some_lt h
  rw [swapExamples_of_lt l hi hj] at h
  simp only [Option.some.injEq] at h
  rw [← h]
  simp only [List.getElem?_set, List.length_set]
  by_cases hkj : k = j
  · subst hkj
    simp [hj, List.getElem?_eq_getElem hi]
  · by_cases hki : k = i
    · subst hki
      simp [hkj, Ne.symm hkj, hi, List.getElem?_eq_getElem hj]
    · simp [hkj, hki, Ne.symm hkj, Ne.symm hki]

theorem validDrawsFrom_cons {N i j : Nat} {js : List Nat} :
    ValidDrawsFrom N i (j :: js) ↔ (i ≤ j ∧ j ≤ N - 1) ∧ ValidDrawsFrom N (i + 1) js := by
  constructor
  · intro h
    refine ⟨by simpa using h 0 j (by simp), ?_⟩
    intro m x hx
    have := h (m + 1) x (by simpa using hx)
    omega
  · rintro ⟨h0, h⟩ m x hx
    cases m with
    | zero =>
      simp only [List.getElem?_cons_zero, Option.some.injEq] at hx
      subst hx
      simpa using h0
    | succ m =>
      have := h m x (by simpa using hx)
      omega

theorem shuffleFrom_perm : ∀ (js : List Nat) (i : Nat) (l : List α),
    (shuffleFrom i js l).Perm l := by
  intro js
  induction js with
  | nil => intro i l; exact List.Perm.refl _
  | cons j js ih =>
    intro i l
    unfold shuffleFrom
    cases h : swapExamples l i j with
    | none => exact List.Perm.refl _
    | some l' => exact (ih (i + 1) l').trans (swapExamples_perm h)

theorem shuffleFrom_frame {N : Nat} : ∀ (js : List Nat) (i : Nat) (l : List α),
    ValidDrawsFrom N i js → ∀ k, k < i → (shuffleFrom i js l)[k]? = l[k]? := by
  intro js
  induction js with
  | nil => intro i l _ k _; rfl
  | cons j js ih =>
    intro i l hv k hk
    obtain ⟨⟨hij, _⟩, hv'⟩ := validDrawsFrom_cons.mp hv
    unfold shuffleFrom
    cases h : swapExamples l i j with
    | none => rfl
    | some l' =>
      show (shuffleFrom (i + 1) js l')[k]? = l[k]?
      rw [ih (i + 1) l' hv' k (by omega), swapExamples_getElem? h k,
        if_neg (by omega), if_neg (by omega)]

theorem permuteLoop_scripted : ∀ (js : List Nat) (i : Nat) (d : Dataset α),
    d.examples.length < 2 ^ 64 → i + js.length ≤ d.examples.length →
    ValidDrawsFrom d.examples.length i js →
    permuteLoop scriptedEngine js.length i d js =
      .ok (⟨shuffleFrom i js d.examples, d.maxExampleSize⟩, []) := by
  intro js
  induction js with
  | nil => intro i d _ _ _; rfl
  | cons j js ih =>
    intro i d hN hle hv
    obtain ⟨⟨hij, hjN⟩, hv'⟩ := validDrawsFrom_cons.mp hv
    simp only [List.length_cons] at hle
    obtain ⟨l, hl, hstep⟩ := RandomSwap_step scriptedEngine d (j :: js) hN
      (show i < d.examples.length by omega)
    have hdraw : scriptedEngine.draw i (d.examples.length - 1) (j :: js) = (j, js) := by
      simp [scriptedEngine, hij, hjN]
    rw [hdraw] at hl hstep
    have hlen : l.length = d.examples.length := (swapExamples_perm hl).length_eq
    have hrec := ih (i + 1) ⟨l, d.maxExampleSize⟩ (by simpa [hlen] using hN)
      (by simp only [hlen]; omega) (by simpa [hlen] using hv')
    simp only [List.length_cons, permuteLoop, hstep]
    rw [hrec]
    simp only [shuffleFrom, hl]
theorem shuffleFrom_cons_of_lt (l : List α) {i j : Nat} (js : List Nat) (hi : i < l.length)
    (hj : j < l.length) :
    shuffleFrom i (j :: js) l = shuffleFrom (i + 1) js ((l.set i l[j]).set j l[i]) := by
  simp only [shuffleFrom, swapExamples_of_lt l hi hj]

theorem swapped_getElem?_target (l : List α) {i j : Nat} (hi : i < l.length)
    (hj : j < l.length) : ((l.set i l[j]).set j l[i])[i]? = l[j]? := by
  rw [swapExamples_getElem? (swapExamples_of_lt l hi hj) i]
  by_cases h : i = j
  · rw [if_pos h, h]
  · rw [if_neg h, if_pos rfl]

theorem shuffleFrom_injective : ∀ (js js' : List Nat) (i : Nat) (l : List α), l.Nodup →
    js.length = js'.length → i + js.length ≤ l.length →
    ValidDrawsFrom l.length i js → ValidDrawsFrom l.length i js' →
    (∀ k, i ≤ k → k < i + js.length →
      (shuffleFrom i js l)[k]? = (shuffleFrom i js' l)[k]?) →
    js = js' := by
  intro js
  induction js with
  | nil =>
    intro js' i l _ hlen _ _ _ _
    exact (List.length_eq_zero.mp hlen.symm).symm
  | cons j js ih =>
    intro js' i l hnd hlen hle hv hv' hagree
    cases js' with
    | nil => simp at hlen
    | cons j' js' =>
      simp only [List.length_cons] at hlen hle hagree
      obtain ⟨⟨hij, hjN⟩, hvt⟩ := validDrawsFrom_cons.mp hv
      obtain ⟨⟨hij', hjN'⟩, hvt'⟩ := validDrawsFrom_cons.mp hv'
      have hi : i < l.length := by omega
      have hj : j < l.length := by omega
      have hj' : j' < l.length := by omega
      rw [shuffleFrom_cons_of_lt l js hi hj, shuffleFrom_cons_of_lt l js' hi hj'] at hagree
      have hlen1 : ((l.set i l[j]).set j l[i]).length = l.length := by simp
      have hlen1' : ((l.set i l[j']).set j' l[i]).length = l.length := by simp
      have hhead := hagree i (Nat.le_refl i) (by omega)
      rw [shuffleFrom_frame (N := l.length) js (i + 1) _ hvt i (by omega),
        shuffleFrom_frame (N := l.length) js' (i + 1) _ hvt' i (by omega),
        swapped_getElem?_target l hi hj, swapped_getElem?_target l hi hj',
        List.getElem?_eq_getElem hj, List.getElem?_eq_getElem hj'] at hhead
      simp only [Option.some.injEq] at hhead
      have hjj : j = j' := (hnd.getElem_inj_iff).mp hhead
      subst hjj
      have hnd1 : ((l.set i l[j]).set j l[i]).Nodup :=
        (set_set_perm l i j hi hj).nodup_iff.mpr hnd
      have := ih js' (i + 1) ((l.set i l[j]).set j l[i]) hnd1 (by omega)
        (by rw [hlen1]; omega) (by rw [hlen1]; exact hvt) (by rw [hlen1]; exact hvt')
        (fun k hk1 hk2 => hagree k (by omega) (by omega))
      rw [this]

theorem mem_drop_iff_getElem? {l : List α} {i : Nat} {x : α} :
    x ∈ l.drop i ↔ ∃ k, i ≤ k ∧ l[k]? = some x := by
  rw [List.mem_iff_getElem?]
  constructor
  · rintro ⟨m, hm⟩
    rw [List.getElem?_drop] at hm
    exact ⟨i + m, by omega, hm⟩
  · rintro ⟨k, hk, hx⟩
    refine ⟨k - i, ?_⟩
    rw [List.getElem?_drop, ← hx]
    congr 1
    omega

theorem shuffleFrom_surjective : ∀ (t : List α) (i : Nat) (l : List α), l.Nodup → t.Nodup →
    i + t.length ≤ l.length → (∀ x ∈ t, x ∈ l.drop i) →
    ∃ js : List Nat, js.length = t.length ∧ ValidDrawsFrom l.length i js ∧
      ((shuffleFrom i js l).drop i).take t.length = t := by
  intro t
  induction t with
  | nil =>
    intro i l _ _ _ _
    refine ⟨[], rfl, ?_, by simp⟩
    intro m j h
    simp at h
  | cons y ys ih =>
    intro i l hnd htnd hle hsub
    simp only [List.length_cons] at hle
    obtain ⟨j, hij, hjy⟩ := mem_drop_iff_getElem?.mp (hsub y (List.mem_cons_self y ys))
    have hi : i < l.length := by omega
    have hj : j < l.length := by
      by_contra hcon
      have hn : l[j]? = none := List.getElem?_eq_none (by omega)
      rw [hn] at hjy
      simp at hjy
    have hswap := swapExamples_of_lt l hi hj
    have hlen1 : ((l.set i l[j]).set j l[i]).length = l.length := by simp
    have hnd1 : ((l.set i l[j]).set j l[i]).Nodup :=
      (set_set_perm l i j hi hj).nodup_iff.mpr hnd
    have hy : y ∉ ys := (List.nodup_cons.mp htnd).1
    have hsub1 : ∀ x ∈ ys, x ∈ ((l.set i l[j]).set j l[i]).drop (i + 1) := by
      intro x hx
      obtain ⟨k, hik, hkx⟩ := mem_drop_iff_getElem?.mp (hsub x (List.mem_cons_of_mem y hx))
      have hkj : k ≠ j := by
        intro h
        rw [h, hjy] at hkx
        simp only [Option.some.injEq] at hkx
        exact hy (hkx ▸ hx)
      rw [mem_drop_iff_getElem?]
      by_cases hki : k = i
      · refine ⟨j, by omega, ?_⟩
        rw [swapExamples_getElem? hswap j, if_pos rfl, ← hki]
        exact hkx
      · refine ⟨k, by omega, ?_⟩
        rw [swapExamples_getElem? hswap k, if_neg hkj, if_neg hki]
        exact hkx
    obtain ⟨js, hjslen, hjsv, hjs⟩ := ih (i + 1) ((l.set i l[j]).set j l[i]) hnd1
      (List.nodup_cons.mp htnd).2 (by rw [hlen1]; omega) hsub1
    rw [hlen1] at hjsv
    refine ⟨j :: js, by simp [hjslen], validDrawsFrom_cons.mpr ⟨⟨hij, by omega⟩, hjsv⟩, ?_⟩
    rw [shuffleFrom_cons_of_lt l js hi hj]
    have hhead : (shuffleFrom (i + 1) js ((l.set i l[j]).set j l[i]))[i]? = some y := by
      rw [shuffleFrom_frame (N := l.length) js (i + 1) _ hjsv i (by omega),
        swapped_getElem?_target l hi hj]
      exact hjy
    have hlt : i < (shuffleFrom (i + 1) js ((l.set i l[j]).set j l[i])).length := by
      rw [(shuffleFrom_perm js (i + 1) _).length_eq, hlen1]
      exact hi
    rw [List.getElem?_eq_getElem hlt] at hhead
    simp only [Option.some.injEq] at hhead
    rw [List.drop_eq_getElem_cons hlt, hhead, List.length_cons, List.take_succ_cons, hjs]
theorem RandomPermute_scripted (d : Dataset α) (p : Nat) (js : List Nat)
    (hN : d.examples.length < 2 ^ 64) (h1 : 1 ≤ p) (hp : p ≤ d.examples.length)
    (hv : ValidDraws d.examples.length p js) :
    RandomPermute scriptedEngine d js p =
      .ok (⟨shuffleFrom 0 js d.examples, d.maxExampleSize⟩, []) := by
  have hc : d.CorrectRangeSize 0 p = p := by
    unfold CorrectRangeSize
    rw [wrapAdd_of_lt (by omega), if_neg (by omega)]
  unfold RandomPermute
  simp only [hc]
  rw [← hv.1]
  exact permuteLoop_scripted js 0 d hN (by rw [hv.1]; omega) hv.2

theorem permutedPrefix_scripted (d : Dataset α) (p : Nat) (js : List Nat)
    (hN : d.examples.length < 2 ^ 64) (h1 : 1 ≤ p) (hp : p ≤ d.examples.length)
    (hv : ValidDraws d.examples.length p js) :
    permutedPrefix d p js = (shuffleFrom 0 js d.examples).take p := by
  unfold permutedPrefix
  rw [RandomPermute_scripted d p js hN h1 hp hv]

/-- C6: for an `N`-row container of pairwise distinct rows and `1 ≤ p ≤ N`, with the
generator replaying a draw sequence `(j_0, ..., j_{p-1})`, `j_i` in `[i, N - 1]`:
`RandomPermute(rng, p)` returns normally, and the map from draw sequences to the first `p`
rows afterwards is a bijection onto the ordered selections of `p` distinct rows of the
original container (it maps into them, different draw sequences give different prefixes,
and every ordered selection is the image of a draw sequence). -/
theorem RandomPermute_prefix_bijection (d : Dataset α) (p : Nat) (hnd : d.examples.Nodup)
    (hN : d.examples.length < 2 ^ 64) (h1 : 1 ≤ p) (hp : p ≤ d.examples.length) :
    (∀ js, ValidDraws d.examples.length p js →
        ∃ d', RandomPermute scriptedEngine d js p = .ok (d', []) ∧
          permutedPrefix d p js = d'.examples.take p) ∧
      Set.BijOn (permutedPrefix d p) {js | ValidDraws d.examples.length p js}
        {t | IsOrderedSelection d.examples p t} := by
  refine ⟨?_, ?_, ?_, ?_⟩
  · intro js hv
    exact ⟨_, RandomPermute_scripted d p js hN h1 hp hv,
      permutedPrefix_scripted d p js hN h1 hp hv⟩
  · intro js hv
    have hperm := shuffleFrom_perm js 0 d.examples
    show IsOrderedSelection d.examples p (permutedPrefix d p js)
    rw [permutedPrefix_scripted d p js hN h1 hp hv]
    refine ⟨?_, ?_, ?_⟩
    · rw [List.length_take, hperm.length_eq]
      omega
    · exact (hperm.nodup_iff.mpr hnd).sublist (List.take_sublist _ _)
    · intro x hx
      exact hperm.subset (List.mem_of_mem_take hx)
  · intro js hv js' hv' heq
    rw [permutedPrefix_scripted d p js hN h1 hp hv,
      permutedPrefix_scripted d p js' hN h1 hp hv'] at heq
    apply shuffleFrom_injective js js' 0 d.examples hnd (by rw [hv.1, hv'.1])
      (by rw [hv.1]; omega) hv.2 hv'.2
    intro k _ hk
    have hkp : k < p := by rw [hv.1] at hk; omega
    rw [← List.getElem?_take_of_lt hkp, heq, List.getElem?_take_of_lt hkp]
  · intro t ht
    obtain ⟨hlen, htnd, hsub⟩ := ht
    obtain ⟨js, hjslen, hjsv, hjs⟩ := shuffleFrom_surjective t 0 d.examples hnd htnd
      (by rw [hlen]; omega) (by simpa using hsub)
    have hv : ValidDraws d.examples.length p js := ⟨by rw [hjslen, hlen], hjsv⟩
    refine ⟨js, hv, ?_⟩
    rw [permutedPrefix_scripted d p js hN h1 hp hv]
    rw [← hlen]
    simpa using hjs

/-- Witness for C6: a three-row container of distinct rows and `p = 2`. -/
theorem RandomPermute_prefix_bijection_witness :
    (([1, 2, 3] : List Nat).Nodup ∧ ([1, 2, 3] : List Nat).length < 2 ^ 64 ∧ 1 ≤ 2 ∧
        2 ≤ ([1, 2, 3] : List Nat).length) ∧
      ((∀ js, ValidDraws ([1, 2, 3] : List Nat).length 2 js →
          ∃ d', RandomPermute scriptedEngine (Dataset.mk [1, 2, 3] 0) js 2 = .ok (d', []) ∧
            permutedPrefix (Dataset.mk [1, 2, 3] 0) 2 js = d'.examples.take 2) ∧
        Set.BijOn (permutedPrefix (Dataset.mk [1, 2, 3] 0) 2)
          {js | ValidDraws ([1, 2, 3] : List Nat).length 2 js}
          {t | IsOrderedSelection [1, 2, 3] 2 t}) :=
  ⟨by decide,
    RandomPermute_prefix_bijection (Dataset.mk [1, 2, 3] 0) 2 (by decide) (by decide)
      (by decide) (by decide)⟩

/-- The prefixes of the witness for the six draw sequences, evaluated: the six ordered
selections of two rows out of three, each once. -/
theorem permutedPrefix_table :
    [[0, 1], [0, 2], [1, 1], [1, 2], [2, 1], [2, 2]].map
        (permutedPrefix (Dataset.mk [1, 2, 3] 0) 2) =
      [[1, 2], [1, 3], [2, 1], [2, 3], [3, 2], [3, 1]] := by
  decide

/-! ### Normalization with overflow -/

/-- C7 (failing input): on a five-row container with `fromIndex = 3 ≤ 5` and the `size_t`
value `size = 2^64 - 1`, the sum `fromIndex + size` wraps to `2`, which is not above the row
count, so `CorrectRangeSize` returns `2^64 - 1` unchanged and `fromIndex + s ≤ N` fails. -/
theorem CorrectRangeSize_overflow_escapes :
    3 ≤ ([1, 5, 3, 4, 9] : List Nat).length ∧ 2 ^ 64 - 1 < 2 ^ 64 ∧
      wrapAdd 3 (2 ^ 64 - 1) = 2 ∧
      (Dataset.mk [1, 5, 3, 4, 9] 0).CorrectRangeSize 3 (2 ^ 64 - 1) = 2 ^ 64 - 1 ∧
      ¬ (3 + (Dataset.mk [1, 5, 3, 4, 9] 0).CorrectRangeSize 3 (2 ^ 64 - 1) ≤
          ([1, 5, 3, 4, 9] : List Nat).length) := by
  decide

/-! ### Zero means to the end -/

theorem CorrectRangeSize_zero (d : Dataset α) (fromIndex : Nat)
    (hN : d.examples.length < 2 ^ 64) (hfrom : fromIndex ≤ d.examples.length) :
    d.CorrectRangeSize fromIndex 0 =
      d.CorrectRangeSize fromIndex (d.examples.length - fromIndex) := by
  unfold CorrectRangeSize
  rw [if_pos (Or.inl rfl), wrapAdd_of_lt (by omega), wrapSub_of_le hfrom hN]
  split <;> rfl

/-- C8: on an `N`-row container and for `fromIndex ≤ N`, each range operation called with
`size = 0` gives exactly the result of the same call with `size = N - fromIndex`:
`GetIterator` (same sequence), `Sort` and `Partition` (same final container), `Print` (same
text), `RandomSwap` and the four-argument `RandomPermute` (same final container and
generator state, from the same generator state). -/
theorem zero_size_means_to_the_end [LinearOrder κ] (d : Dataset α) (fromIndex : Nat)
    (hN : d.examples.length < 2 ^ 64) (hfrom : fromIndex ≤ d.examples.length)
    (convert : α → β) (S : StdSort α) (sortKey : α → κ) (P : StdPartition α)
    (pred : α → Bool) (printRow : α → List Char) (maxSize : Nat) (os : List Char) (tabs : Nat)
    (E : UniformIntEngine G) (rng : G) (targetIndex prefixSize : Nat) :
    GetIterator convert d fromIndex 0 =
        GetIterator convert d fromIndex (d.examples.length - fromIndex) ∧
      SortRange S sortKey d fromIndex 0 =
        SortRange S sortKey d fromIndex (d.examples.length - fromIndex) ∧
      Partition P pred d fromIndex 0 =
        Partition P pred d fromIndex (d.examples.length - fromIndex) ∧
      Print printRow maxSize d os tabs fromIndex 0 =
        Print printRow maxSize d os tabs fromIndex (d.examples.length - fromIndex) ∧
      RandomSwap E d rng targetIndex fromIndex 0 =
        RandomSwap E d rng targetIndex fromIndex (d.examples.length - fromIndex) ∧
      RandomPermuteRange E d rng fromIndex 0 prefixSize =
        RandomPermuteRange E d rng fromIndex (d.examples.length - fromIndex) prefixSize := by
  have h := CorrectRangeSize_zero d fromIndex hN hfrom
  refine ⟨?_, ?_, ?_, ?_, ?_, ?_⟩
  · unfold GetIterator
    rw [h]
  · unfold SortRange
    rw [h]
  · unfold Partition
    rw [h]
  · unfold Print
    rw [h]
  · unfold RandomSwap
    rw [h]
  · unfold RandomPermuteRange
    rw [h]

/-- Witness for C8: a four-row container and `fromIndex = 1`, with the concrete sort,
partition and generator. -/
theorem zero_size_means_to_the_end_witness :
    (([4, 2, 3, 1] : List Nat).length < 2 ^ 64 ∧ 1 ≤ ([4, 2, 3, 1] : List Nat).length) ∧
      (GetIterator (id : Nat → Nat) (Dataset.mk [4, 2, 3, 1] 0) 1 0 =
          GetIterator id (Dataset.mk [4, 2, 3, 1] 0) 1 (([4, 2, 3, 1] : List Nat).length - 1) ∧
        SortRange (insertionStdSort Nat) (id : Nat → Nat) (Dataset.mk [4, 2, 3, 1] 0) 1 0 =
          SortRange (insertionStdSort Nat) id (Dataset.mk [4, 2, 3, 1] 0) 1
            (([4, 2, 3, 1] : List Nat).length - 1) ∧
        Partition (filterStdPartition Nat) (fun n => n % 2 == 0) (Dataset.mk [4, 2, 3, 1] 0) 1 0 =
          Partition (filterStdPartition Nat) (fun n => n % 2 == 0) (Dataset.mk [4, 2, 3, 1] 0) 1
            (([4, 2, 3, 1] : List Nat).length - 1) ∧
        Print (fun n => Nat.toDigits 10 n) (2 ^ 62) (Dataset.mk [4, 2, 3, 1] 0) [] 1 1 0 =
          Print (fun n => Nat.toDigits 10 n) (2 ^ 62) (Dataset.mk [4, 2, 3, 1] 0) [] 1 1
            (([4, 2, 3, 1] : List Nat).length - 1) ∧
        RandomSwap scriptedEngine (Dataset.mk [4, 2, 3, 1] 0) [3, 2] 1 1 0 =
          RandomSwap scriptedEngine (Dataset.mk [4, 2, 3, 1] 0) [3, 2] 1 1
            (([4, 2, 3, 1] : List Nat).length - 1) ∧
        RandomPermuteRange scriptedEngine (Dataset.mk [4, 2, 3, 1] 0) [3, 2] 1 0 2 =
          RandomPermuteRange scriptedEngine (Dataset.mk [4, 2, 3, 1] 0) [3, 2] 1
            (([4, 2, 3, 1] : List Nat).length - 1) 2) :=
  ⟨by decide,
    zero_size_means_to_the_end (Dataset.mk [4, 2, 3, 1] 0) 1 (by decide) (by decide) id
      (insertionStdSort Nat) id (filterStdPartition Nat) (fun n => n % 2 == 0)
      (fun n => Nat.toDigits 10 n) (2 ^ 62) [] 1 scriptedEngine [3, 2] 1 2⟩

/-! ### Construction from a sequence -/

theorem AddExample_eq (dataSize : α → Nat) (d : Dataset α) (ex : α) :
    AddExample dataSize d ex = ⟨d.examples ++ [ex], max d.maxExampleSize (dataSize ex)⟩ := by
  unfold AddExample
  by_cases h : d.maxExampleSize < dataSize ex
  · simp only [if_pos h]
    rw [max_eq_right (Nat.le_of_lt h)]
  · simp only [if_neg h]
    rw [max_eq_left (by omega)]

theorem foldl_AddExample (dataSize : α → Nat) : ∀ (l : List α) (d : Dataset α),
    l.foldl (AddExample dataSize) d =
      ⟨d.examples ++ l, max d.maxExampleSize (maxDataSize dataSize l)⟩ := by
  intro l
  induction l with
  | nil => intro d; simp [maxDataSize]
  | cons x l ih =>
    intro d
    rw [List.foldl_cons, ih, AddExample_eq]
    simp only [List.append_assoc, List.singleton_append, maxDataSize, List.map_cons,
      List.foldr_cons, max_assoc]

theorem iterate_Next (it : DatasetExampleIterator γ α) (k : Nat) :
    (DatasetExampleIterator.Next^[k] it) = { it with current := it.current + k } := by
  induction k generalizing it with
  | zero => rfl
  | succ k ih =>
    rw [Function.iterate_succ_apply, ih]
    simp only [DatasetExampleIterator.Next]
    congr 1
    omega

theorem drain_eq (dataSize : α → Nat) : ∀ (n : Nat) (it : DatasetExampleIterator γ α)
    (d : Dataset α), it.endPos - it.current = n → it.endPos ≤ it.storage.length →
    drain dataSize it d =
      .ok ((((it.storage.drop it.current).take n).map it.convert).foldl
        (AddExample dataSize) d) := by
  intro n
  induction n with
  | zero =>
    intro it d hn _
    rw [drain]
    have hv : ¬ it.IsValid = true := by
      simp only [DatasetExampleIterator.IsValid, decide_eq_true_eq]
      omega
    rw [if_neg hv]
    simp
  | succ n ih =>
    intro it d hn hle
    rw [drain]
    have hv : it.IsValid = true := by
      simp only [DatasetExampleIterator.IsValid, decide_eq_true_eq]
      omega
    have hc : it.current < it.storage.length := by omega
    have hget : it.Get = some (it.convert it.storage[it.current]) := by
      simp only [DatasetExampleIterator.Get, List.getElem?_eq_getElem hc, Option.map_some']
    rw [if_pos hv, hget]
    simp only
    rw [ih it.Next _ (by simp only [DatasetExampleIterator.Next]; omega)
      (by simpa only [DatasetExampleIterator.Next] using hle)]
    simp only [DatasetExampleIterator.Next]
    rw [List.drop_eq_getElem_cons hc, List.take_succ_cons, List.map_cons, List.foldl_cons]

theorem GetIterator_of_range (convert : α → β) (d : Dataset α) {fromIndex size a b : Nat}
    (h : d.iteratorRange fromIndex (d.CorrectRangeSize fromIndex size) = some (a, b)) :
    GetIterator convert d fromIndex size = .ok ⟨d.examples, convert, a, b⟩ := by
  unfold GetIterator
  simp only [h]

/-- C9: for every container `d` (the empty one included), `GetIterator` over the full range
(`fromIndex = 0`, `size = 0`) with the identity conversion returns a sequence from which
the constructor `Dataset(ExampleIterator)` and `MakeDataset` both build, without failing,
one container `d'` that has the rows of `d` in the same order; its `maxExampleSize` is the
maximum feature-vector length of these rows, which is the `maxExampleSize` of `d` by the
invariant of the data model. -/
theorem roundtrip_construction (dataSize : α → Nat) (d : Dataset α)
    (hN : d.examples.length < 2 ^ 63) :
    ∃ it d', GetIterator id d 0 0 = .ok it ∧ ofIterator dataSize it = .ok d' ∧
      MakeDataset dataSize it = .ok d' ∧ d'.examples = d.examples ∧
      d'.maxExampleSize = maxDataSize dataSize d.examples ∧
      (MaxSizeInvariant dataSize d → d' = d) := by
  have hs : d.CorrectRangeSize 0 0 = d.examples.length := by
    unfold CorrectRangeSize
    rw [if_pos (Or.inl rfl), wrapSub_of_le (Nat.zero_le _) (by omega)]
    rfl
  have hbuild : ofIterator dataSize
      (⟨d.examples, id, 0, 0 + d.examples.length⟩ : DatasetExampleIterator α α) =
        .ok ⟨d.examples, maxDataSize dataSize d.examples⟩ := by
    unfold ofIterator
    rw [drain_eq dataSize d.examples.length _ _ (by simp) (by simp)]
    simp only [List.drop_zero, List.take_length, List.map_id_fun, id_eq, foldl_AddExample,
      List.nil_append, Nat.zero_max]
  refine ⟨⟨d.examples, id, 0, 0 + d.examples.length⟩,
    ⟨d.examples, maxDataSize dataSize d.examples⟩, ?_, hbuild, ?_, rfl, rfl, ?_⟩
  · apply GetIterator_of_range
    rw [hs]
    exact iteratorRange_in_range d hN (by omega)
  · unfold MakeDataset
    exact hbuild
  · intro hinv
    unfold MaxSizeInvariant at hinv
    rw [← hinv]

/-- Witness for C9: a three-row container whose rows have the feature-vector lengths
2, 5 and 3. -/
theorem roundtrip_construction_witness :
    ([2, 5, 3] : List Nat).length < 2 ^ 63 ∧
      ∃ it d', GetIterator id (Dataset.mk [2, 5, 3] 5) 0 0 = .ok it ∧
        ofIterator id it = .ok d' ∧ MakeDataset id it = .ok d' ∧
        d'.examples = [2, 5, 3] ∧ d'.maxExampleSize = maxDataSize id [2, 5, 3] ∧
        (MaxSizeInvariant id (Dataset.mk [2, 5, 3] 5) → d' = Dataset.mk [2, 5, 3] 5) :=
  ⟨by decide, roundtrip_construction id (Dataset.mk [2, 5, 3] 5) (by decide)⟩

/-! ### Iteration over a range -/

/-- Iteration content and exhaustion on every range whose end `fromIndex + size` does not
overflow `size_t`: `GetIterator` returns a sequence that, with `s` the normalized size,
is valid after `k` advances for each `k < s` and then yields the conversion of the stored
row at index `fromIndex + k`, and is not valid after `s` advances. -/
theorem GetIterator_in_range (convert : α → β) (d : Dataset α) (fromIndex size : Nat)
    (hN : d.examples.length < 2 ^ 63) (hfrom : fromIndex ≤ d.examples.length)
    (hno : fromIndex + size < 2 ^ 64) :
    ∃ it, GetIterator convert d fromIndex size = .ok it ∧
      (∀ k, k < d.CorrectRangeSize fromIndex size →
        (DatasetExampleIterator.Next^[k] it).IsValid = true ∧
        ∃ row, d.examples[fromIndex + k]? = some row ∧
          (DatasetExampleIterator.Next^[k] it).Get = some (convert row)) ∧
      (DatasetExampleIterator.Next^[d.CorrectRangeSize fromIndex size] it).IsValid = false := by
  have hin := CorrectRangeSize_in_range d fromIndex size (by omega) hfrom hno
  generalize hs : d.CorrectRangeSize fromIndex size = s at hin
  refine ⟨⟨d.examples, convert, fromIndex, fromIndex + s⟩, ?_, ?_, ?_⟩
  · apply GetIterator_of_range
    rw [hs]
    exact iteratorRange_in_range d hN hin
  · intro k hk
    rw [iterate_Next]
    have hlt : fromIndex + k < d.examples.length := by omega
    refine ⟨?_, d.examples[fromIndex + k], List.getElem?_eq_getElem hlt, ?_⟩
    · simp only [DatasetExampleIterator.IsValid, decide_eq_true_eq]
      omega
    · simp only [DatasetExampleIterator.Get, List.getElem?_eq_getElem hlt, Option.map_some']
  · rw [iterate_Next]
    simp only [DatasetExampleIterator.IsValid, decide_eq_false_iff_not]
    omega

/-- Witness for `GetIterator_in_range`: rows 1 to 2 of a four-row container. -/
theorem GetIterator_in_range_witness :
    (([4, 2, 3, 1] : List Nat).length < 2 ^ 63 ∧ 1 ≤ ([4, 2, 3, 1] : List Nat).length ∧
        1 + 2 < 2 ^ 64) ∧
      ∃ it, GetIterator (fun n : Nat => n + 100) (Dataset.mk [4, 2, 3, 1] 0) 1 2 = .ok it ∧
        (DatasetExampleIterator.Next^[(Dataset.mk [4, 2, 3, 1] 0).CorrectRangeSize 1 2] it).IsValid
          = false :=
  ⟨by decide,
    (GetIterator_in_range (fun n : Nat => n + 100) (Dataset.mk [4, 2, 3, 1] 0) 1 2 (by decide)
      (by decide) (by decide)).imp fun _ h => ⟨h.1, h.2.2⟩⟩

/-- C10 (failing input): on a five-row container `GetIterator(3, 2^64 - 1)` gets the size
back from `CorrectRangeSize` unnormalized, `s = 2^64 - 1`, because `3 + (2^64 - 1)` wraps to
`2`; the sequence returned has its cursor at position 3 and its end at position 2, so it is
invalid from the start and yields no pull at all (neither `s` pulls nor the two remaining
rows), and there is no stored row at index `3 + k` for `k = 2 < s`. -/
theorem GetIterator_overflow_empty :
    (Dataset.mk [1, 5, 3, 4, 9] 0).CorrectRangeSize 3 (2 ^ 64 - 1) = 2 ^ 64 - 1 ∧
      ∃ it, GetIterator (id : Nat → Nat) (Dataset.mk [1, 5, 3, 4, 9] 0) 3 (2 ^ 64 - 1) = .ok it ∧
        it.current = 3 ∧ it.endPos = 2 ∧ it.IsValid = false ∧
        ([1, 5, 3, 4, 9] : List Nat)[3 + 2]? = none := by
  refine ⟨by decide, ⟨[1, 5, 3, 4, 9], id, 3, 2⟩, ?_, rfl, rfl, by decide, by decide⟩
  have hs : (Dataset.mk [1, 5, 3, 4, 9] 0).CorrectRangeSize 3 (2 ^ 64 - 1) = 2 ^ 64 - 1 := by
    decide
  have hr : (Dataset.mk [1, 5, 3, 4, 9] 0).iteratorRange 3 (2 ^ 64 - 1) = some (3, 2) := by
    decide
  apply GetIterator_of_range
  rw [hs]
  exact hr

/-! ### The effect of one exchange -/

theorem CorrectRangeSize_pos (d : Dataset α) {rangeFirst rangeSize : Nat}
    (hN : d.examples.length < 2 ^ 64) (hrf : rangeFirst < d.examples.length)
    (hno : rangeFirst + rangeSize < 2 ^ 64) :
    1 ≤ d.CorrectRangeSize rangeFirst rangeSize ∧
      rangeFirst + d.CorrectRangeSize rangeFirst rangeSize ≤ d.examples.length := by
  unfold CorrectRangeSize
  rw [wrapAdd_of_lt hno, wrapSub_of_le (by omega) hN]
  split <;> omega

theorem RandomSwap_ok (E : UniformIntEngine G) (d : Dataset α) (rng : G)
    (targetIndex rangeFirst rangeSize : Nat) (hN : d.examples.length < 2 ^ 64)
    (ht : targetIndex < d.examples.length) (hrf : rangeFirst < d.examples.length)
    (hno : rangeFirst + rangeSize < 2 ^ 64) :
    ∃ l, swapExamples d.examples targetIndex
        (E.draw rangeFirst (rangeFirst + d.CorrectRangeSize rangeFirst rangeSize - 1) rng).1
          = some l ∧
      RandomSwap E d rng targetIndex rangeFirst rangeSize =
        .ok (⟨l, d.maxExampleSize⟩,
          (E.draw rangeFirst (rangeFirst + d.CorrectRangeSize rangeFirst rangeSize - 1) rng).2) := by
  obtain ⟨h1, h2⟩ := CorrectRangeSize_pos d hN hrf hno
  generalize hs : d.CorrectRangeSize rangeFirst rangeSize = s at h1 h2 ⊢
  have hb : wrapSub (wrapAdd rangeFirst s) 1 = rangeFirst + s - 1 := by
    rw [wrapAdd_of_lt (by omega), wrapSub_of_le (by omega) (by omega)]
  have hmem := E.draw_mem rangeFirst (rangeFirst + s - 1) rng (by omega)
  have hj : (E.draw rangeFirst (rangeFirst + s - 1) rng).1 < d.examples.length := by omega
  refine ⟨_, swapExamples_of_lt d.examples ht hj, ?_⟩
  unfold RandomSwap
  simp only [hs, hb]
  rw [if_neg (by omega), if_pos (by omega), swapExamples_of_lt d.examples ht hj]

/-- C13: on an `N`-row container, for `targetIndex < N`, `rangeFirst < N` and a `rangeSize`
whose sum with `rangeFirst` does not overflow `size_t`, `RandomSwap` draws `j` from the closed
interval `[rangeFirst, rangeFirst + s - 1]`, `s` being the normalized range size, and returns
normally with a container that has the old row `j` at `targetIndex`, the old row
`targetIndex` at `j` and every other position unchanged; for `j = targetIndex` the container
is unchanged. -/
theorem RandomSwap_effect (E : UniformIntEngine G) (d : Dataset α) (rng : G)
    (targetIndex rangeFirst rangeSize : Nat) (hN : d.examples.length < 2 ^ 64)
    (ht : targetIndex < d.examples.length) (hrf : rangeFirst < d.examples.length)
    (hno : rangeFirst + rangeSize < 2 ^ 64) :
    ∃ j rng' d',
      E.draw rangeFirst (rangeFirst + d.CorrectRangeSize rangeFirst rangeSize - 1) rng
        = (j, rng') ∧
      rangeFirst ≤ j ∧ j ≤ rangeFirst + d.CorrectRangeSize rangeFirst rangeSize - 1 ∧
      j < d.examples.length ∧
      RandomSwap E d rng targetIndex rangeFirst rangeSize = .ok (d', rng') ∧
      d'.examples.length = d.examples.length ∧
      d'.maxExampleSize = d.maxExampleSize ∧
      d'.examples[targetIndex]? = d.examples[j]? ∧
      d'.examples[j]? = d.examples[targetIndex]? ∧
      (∀ k, k ≠ targetIndex → k ≠ j → d'.examples[k]? = d.examples[k]?) ∧
      (j = targetIndex → d' = d) := by
  obtain ⟨h1, h2⟩ := CorrectRangeSize_pos d hN hrf hno
  obtain ⟨l, hl, hrun⟩ := RandomSwap_ok E d rng targetIndex rangeFirst rangeSize hN ht hrf hno
  have hmem := E.draw_mem rangeFirst
    (rangeFirst + d.CorrectRangeSize rangeFirst rangeSize - 1) rng (by omega)
  generalize E.draw rangeFirst (rangeFirst + d.CorrectRangeSize rangeFirst rangeSize - 1) rng
    = r at hl hrun hmem
  refine ⟨r.1, r.2, ⟨l, d.maxExampleSize⟩, rfl, hmem.1, hmem.2, by omega, hrun,
    (swapExamples_perm hl).length_eq, rfl, ?_, ?_, ?_, ?_⟩
  · show l[targetIndex]? = _
    rw [swapExamples_getElem? hl targetIndex]
    by_cases h : targetIndex = r.1
    · rw [if_pos h, h]
    · rw [if_neg h, if_pos rfl]
  · show l[r.1]? = _
    rw [swapExamples_getElem? hl r.1, if_pos rfl]
  · intro k hk1 hk2
    show l[k]? = _
    rw [swapExamples_getElem? hl k, if_neg hk2, if_neg hk1]
  · intro hj
    have : l = d.examples := by
      apply List.ext_getElem?
      intro k
      rw [swapExamples_getElem? hl k]
      by_cases h1 : k = r.1
      · rw [if_pos h1, h1, hj]
      · rw [if_neg h1]
        by_cases h2 : k = targetIndex
        · rw [if_pos h2, h2, hj]
        · rw [if_neg h2]
    show (⟨l, d.maxExampleSize⟩ : Dataset α) = d
    rw [this]

/-- Witness for C13: a four-row container, `targetIndex = 0`, the range of rows 1 to 3 and
the generator replaying the draw 2. -/
theorem RandomSwap_effect_witness :
    (([4, 2, 3, 1] : List Nat).length < 2 ^ 64 ∧ 0 < ([4, 2, 3, 1] : List Nat).length ∧
        1 < ([4, 2, 3, 1] : List Nat).length ∧ 1 + 3 < 2 ^ 64) ∧
      ∃ j rng' d',
        scriptedEngine.draw 1 (1 + (Dataset.mk [4, 2, 3, 1] 0).CorrectRangeSize 1 3 - 1) [2]
          = (j, rng') ∧
        1 ≤ j ∧ j ≤ 1 + (Dataset.mk [4, 2, 3, 1] 0).CorrectRangeSize 1 3 - 1 ∧
        j < ([4, 2, 3, 1] : List Nat).length ∧
        RandomSwap scriptedEngine (Dataset.mk [4, 2, 3, 1] 0) [2] 0 1 3 = .ok (d', rng') ∧
        d'.examples.length = ([4, 2, 3, 1] : List Nat).length ∧
        d'.maxExampleSize = 0 ∧
        d'.examples[0]? = ([4, 2, 3, 1] : List Nat)[j]? ∧
        d'.examples[j]? = ([4, 2, 3, 1] : List Nat)[0]? ∧
        (∀ k, k ≠ 0 → k ≠ j → d'.examples[k]? = ([4, 2, 3, 1] : List Nat)[k]?) ∧
        (j = 0 → d' = Dataset.mk [4, 2, 3, 1] 0) :=
  ⟨by decide,
    RandomSwap_effect scriptedEngine (Dataset.mk [4, 2, 3, 1] 0) [2] 0 1 3 (by decide)
      (by decide) (by decide) (by decide)⟩

/-- The exchange of the witness, evaluated. -/
theorem RandomSwap_scenario :
    RandomSwap scriptedEngine (Dataset.mk [4, 2, 3, 1] 0) [2] 0 1 3 =
      .ok (Dataset.mk [3, 2, 4, 1] 0, []) := by
  decide
/-! ### The outcomes of the randomized operations -/

theorem RandomSwap_cases (E : UniformIntEngine G) (d : Dataset α) (rng : G)
    (targetIndex rangeFirst rangeSize : Nat) :
    RandomSwap E d rng targetIndex rangeFirst rangeSize = .thrown .indexOutOfRange (d, rng) ∨
      RandomSwap E d rng targetIndex rangeFirst rangeSize = .undefined ∨
      ∃ l j rng', swapExamples d.examples targetIndex j = some l ∧
        RandomSwap E d rng targetIndex rangeFirst rangeSize =
          .ok (⟨l, d.maxExampleSize⟩, rng') := by
  unfold RandomSwap
  by_cases ht : targetIndex > d.examples.length
  · left
    simp only [if_pos ht]
  · right
    simp only [if_neg ht]
    split
    · split
      · rename_i l hl
        right
        exact ⟨l, _, _, hl, rfl⟩
      · left
        rfl
    · left
      rfl

theorem permuteLoop_outcome (E : UniformIntEngine G) :
    ∀ (count i : Nat) (d : Dataset α) (rng : G),
      permuteLoop E count i d rng = .undefined ∨
      ∃ d' rng', (permuteLoop E count i d rng = .ok (d', rng') ∨
          permuteLoop E count i d rng = .thrown .indexOutOfRange (d', rng')) ∧
        d'.examples.Perm d.examples ∧ d'.maxExampleSize = d.maxExampleSize := by
  intro count
  induction count with
  | zero =>
    intro i d rng
    exact Or.inr ⟨d, rng, Or.inl rfl, List.Perm.refl _, rfl⟩
  | succ count ih =>
    intro i d rng
    rcases RandomSwap_cases E d rng i i (wrapSub d.examples.length i) with h | h | ⟨l, j, g, hl, h⟩
    · right
      refine ⟨d, rng, Or.inr ?_, List.Perm.refl _, rfl⟩
      simp only [permuteLoop, h]
    · left
      simp only [permuteLoop, h]
    · have hstep : permuteLoop E (count + 1) i d rng =
          permuteLoop E count (i + 1) ⟨l, d.maxExampleSize⟩ g := by
        simp only [permuteLoop, h]
      rw [hstep]
      rcases ih (i + 1) ⟨l, d.maxExampleSize⟩ g with h' | ⟨d', g', hrun, hp, hm⟩
      · exact Or.inl h'
      · exact Or.inr ⟨d', g', hrun, hp.trans (swapExamples_perm hl), hm⟩

theorem permuteRangeLoop_outcome (E : UniformIntEngine G) (rangeFirst rangeSize : Nat) :
    ∀ (count s : Nat) (d : Dataset α) (rng : G),
      permuteRangeLoop E rangeFirst rangeSize count s d rng = .undefined ∨
      ∃ d' rng', (permuteRangeLoop E rangeFirst rangeSize count s d rng = .ok (d', rng') ∨
          permuteRangeLoop E rangeFirst rangeSize count s d rng =
            .thrown .indexOutOfRange (d', rng')) ∧
        d'.examples.Perm d.examples ∧ d'.maxExampleSize = d.maxExampleSize := by
  intro count
  induction count with
  | zero =>
    intro s d rng
    exact Or.inr ⟨d, rng, Or.inl rfl, List.Perm.refl _, rfl⟩
  | succ count ih =>
    intro s d rng
    rcases RandomSwap_cases E d rng (wrapAdd rangeFirst s) (wrapAdd rangeFirst s)
      (wrapSub rangeSize s) with h | h | ⟨l, j, g, hl, h⟩
    · right
      refine ⟨d, rng, Or.inr ?_, List.Perm.refl _, rfl⟩
      simp only [permuteRangeLoop, h]
    · left
      simp only [permuteRangeLoop, h]
    · have hstep : permuteRangeLoop E rangeFirst rangeSize (count + 1) s d rng =
          permuteRangeLoop E rangeFirst rangeSize count (s + 1) ⟨l, d.maxExampleSize⟩ g := by
        simp only [permuteRangeLoop, h]
      rw [hstep]
      rcases ih (s + 1) ⟨l, d.maxExampleSize⟩ g with h' | ⟨d', g', hrun, hp, hm⟩
      · exact Or.inl h'
      · exact Or.inr ⟨d', g', hrun, hp.trans (swapExamples_perm hl), hm⟩

/-! ### The two shuffles on the whole container -/

theorem permuteRangeLoop_whole (E : UniformIntEngine G) :
    ∀ (count s : Nat) (d : Dataset α) (rng : G), d.examples.length < 2 ^ 64 →
      s + count ≤ d.examples.length →
      permuteRangeLoop E 0 d.examples.length count s d rng = permuteLoop E count s d rng := by
  intro count
  induction count with
  | zero => intro s d rng _ _; rfl
  | succ count ih =>
    intro s d rng hN hle
    have hidx : wrapAdd 0 s = s := by
      rw [wrapAdd_of_lt (by omega), Nat.zero_add]
    simp only [permuteRangeLoop, permuteLoop, hidx]
    rcases RandomSwap_cases E d rng s s (wrapSub d.examples.length s) with h | h | ⟨l, j, g, hl, h⟩
    · simp only [h]
    · simp only [h]
    · simp only [h]
      have hlen : l.length = d.examples.length := (swapExamples_perm hl).length_eq
      have := ih (s + 1) ⟨l, d.maxExampleSize⟩ g (by simpa [hlen] using hN)
        (by simp only [hlen]; omega)
      simp only [hlen] at this
      exact this

theorem RandomPermute_eq_range (E : UniformIntEngine G) (d : Dataset α) (rng : G)
    (prefixSize : Nat) (hN : d.examples.length < 2 ^ 64) (hp : prefixSize < 2 ^ 64) :
    RandomPermute E d rng prefixSize = RandomPermuteRange E d rng 0 0 prefixSize := by
  have h0 : d.CorrectRangeSize 0 0 = d.examples.length := by
    unfold CorrectRangeSize
    rw [if_pos (Or.inl rfl), wrapSub_of_le (Nat.zero_le _) hN]
    rfl
  have hpre : d.CorrectRangeSize 0 prefixSize =
      if prefixSize > d.examples.length ∨ prefixSize = 0 then d.examples.length
      else prefixSize := by
    unfold CorrectRangeSize
    rw [wrapAdd_of_lt (by omega), Nat.zero_add, wrapSub_of_le (Nat.zero_le _) hN]
    by_cases h : prefixSize = 0 ∨ prefixSize > d.examples.length
    · rw [if_pos h, if_pos (by omega)]
      rfl
    · rw [if_neg h, if_neg (by omega)]
  unfold RandomPermute RandomPermuteRange
  simp only [h0, hpre]
  rw [permuteRangeLoop_whole E _ 0 d rng hN (by split <;> omega)]

/-- C17: for every container, every `prefixSize` and every generator state,
`RandomPermute(rng, prefixSize)` and `RandomPermute(rng, 0, 0, prefixSize)` have the same
outcome: the same final container and generator state. This holds for every generator, in
particular for one that records the intervals it is asked to draw from, so the two calls
request the same sequence of draw intervals. -/
theorem RandomPermute_overloads_agree (E : UniformIntEngine G) (d : Dataset α) (rng : G)
    (prefixSize : Nat) (hN : d.examples.length < 2 ^ 64) (hp : prefixSize < 2 ^ 64) :
    RandomPermute E d rng prefixSize = RandomPermuteRange E d rng 0 0 prefixSize ∧
      RandomPermute (loggingEngine E) d (rng, []) prefixSize =
        RandomPermuteRange (loggingEngine E) d (rng, []) 0 0 prefixSize :=
  ⟨RandomPermute_eq_range E d rng prefixSize hN hp,
    RandomPermute_eq_range (loggingEngine E) d (rng, []) prefixSize hN hp⟩

/-- Witness for C17: a three-row container, the generator replaying the draws 2 and 1, and
`prefixSize = 2`. -/
theorem RandomPermute_overloads_agree_witness :
    (([1, 2, 3] : List Nat).length < 2 ^ 64 ∧ 2 < 2 ^ 64) ∧
      (RandomPermute scriptedEngine (Dataset.mk [1, 2, 3] 0) [2, 1] 2 =
          RandomPermuteRange scriptedEngine (Dataset.mk [1, 2, 3] 0) [2, 1] 0 0 2 ∧
        RandomPermute (loggingEngine scriptedEngine) (Dataset.mk [1, 2, 3] 0) ([2, 1], []) 2 =
          RandomPermuteRange (loggingEngine scriptedEngine) (Dataset.mk [1, 2, 3] 0)
            ([2, 1], []) 0 0 2) :=
  ⟨by decide,
    RandomPermute_overloads_agree scriptedEngine (Dataset.mk [1, 2, 3] 0) [2, 1] 2 (by decide)
      (by decide)⟩

/-- The intervals recorded in the witness: `[0, 2]` then `[1, 2]`, by either call. -/
theorem RandomPermute_logged_intervals :
    RandomPermute (loggingEngine scriptedEngine) (Dataset.mk [1, 2, 3] 0) ([2, 1], []) 2 =
        .ok (Dataset.mk [3, 2, 1] 0, ([], [(0, 2), (1, 2)])) ∧
      RandomPermuteRange (loggingEngine scriptedEngine) (Dataset.mk [1, 2, 3] 0)
          ([2, 1], []) 0 0 2 =
        .ok (Dataset.mk [3, 2, 1] 0, ([], [(0, 2), (1, 2)])) := by
  decide

/-! ### Normalization: underflow and idempotence -/

/-- C18: on a container of `N` rows and for a `size_t` value `fromIndex > N`,
`CorrectRangeSize(fromIndex, 0)` (a plain value, no error is reported) is the wrapped
difference `(N - fromIndex) mod 2^64 = 2^64 - (fromIndex - N)`, which is larger than `N`, so
that `fromIndex + size` is not within storage. -/
theorem CorrectRangeSize_underflow (d : Dataset α) (fromIndex : Nat)
    (hfrom : d.examples.length < fromIndex) (hsz : fromIndex < 2 ^ 64) :
    d.CorrectRangeSize fromIndex 0 = wrapSub d.examples.length fromIndex ∧
      d.CorrectRangeSize fromIndex 0 = 2 ^ 64 - (fromIndex - d.examples.length) ∧
      d.examples.length < d.CorrectRangeSize fromIndex 0 ∧
      ¬ (fromIndex + d.CorrectRangeSize fromIndex 0 ≤ d.examples.length) := by
  have h1 : d.CorrectRangeSize fromIndex 0 = wrapSub d.examples.length fromIndex := by
    unfold CorrectRangeSize
    rw [if_pos (Or.inl rfl)]
  have h2 : wrapSub d.examples.length fromIndex = 2 ^ 64 - (fromIndex - d.examples.length) := by
    unfold wrapSub
    rw [Nat.mod_eq_of_lt hsz, Nat.mod_eq_of_lt (by omega)]
    omega
  rw [h1, h2]
  refine ⟨rfl, rfl, by omega, by omega⟩

/-- Witness for C18: a three-row container and `fromIndex = 5`; the value returned is
`2^64 - 2`. -/
theorem CorrectRangeSize_underflow_witness :
    (([10, 20, 30] : List Nat).length < 5 ∧ 5 < 2 ^ 64) ∧
      ((Dataset.mk [10, 20, 30] 0).CorrectRangeSize 5 0 =
          wrapSub ([10, 20, 30] : List Nat).length 5 ∧
        (Dataset.mk [10, 20, 30] 0).CorrectRangeSize 5 0 =
          2 ^ 64 - (5 - ([10, 20, 30] : List Nat).length) ∧
        ([10, 20, 30] : List Nat).length < (Dataset.mk [10, 20, 30] 0).CorrectRangeSize 5 0 ∧
        ¬ (5 + (Dataset.mk [10, 20, 30] 0).CorrectRangeSize 5 0 ≤
            ([10, 20, 30] : List Nat).length)) :=
  ⟨by decide, CorrectRangeSize_underflow (Dataset.mk [10, 20, 30] 0) 5 (by decide) (by decide)⟩

/-- C20: on a container of `N` rows, for `fromIndex ≤ N` and every `size`, normalizing the
normalized size again gives the normalized size. -/
theorem CorrectRangeSize_idempotent (d : Dataset α) (fromIndex size : Nat)
    (hN : d.examples.length < 2 ^ 64) (hfrom : fromIndex ≤ d.examples.length) :
    d.CorrectRangeSize fromIndex (d.CorrectRangeSize fromIndex size) =
      d.CorrectRangeSize fromIndex size := by
  by_cases h : size = 0 ∨ wrapAdd fromIndex size > d.examples.length
  · have h1 : d.CorrectRangeSize fromIndex size = d.examples.length - fromIndex := by
      unfold CorrectRangeSize
      rw [if_pos h, wrapSub_of_le hfrom hN]
    rw [h1]
    unfold CorrectRangeSize
    rw [wrapAdd_of_lt (by omega), wrapSub_of_le hfrom hN]
    split <;> rfl
  · have h1 : d.CorrectRangeSize fromIndex size = size := by
      unfold CorrectRangeSize
      rw [if_neg h]
    rw [h1, h1]

/-- Witness for C20: a three-row container, `fromIndex = 1` and a size running past the
end. -/
theorem CorrectRangeSize_idempotent_witness :
    (([10, 20, 30] : List Nat).length < 2 ^ 64 ∧ 1 ≤ ([10, 20, 30] : List Nat).length) ∧
      (Dataset.mk [10, 20, 30] 0).CorrectRangeSize 1
          ((Dataset.mk [10, 20, 30] 0).CorrectRangeSize 1 5) =
        (Dataset.mk [10, 20, 30] 0).CorrectRangeSize 1 5 :=
  ⟨by decide,
    CorrectRangeSize_idempotent (Dataset.mk [10, 20, 30] 0) 1 5 (by decide) (by decide)⟩

/-! ### The bounds check of the exchange -/

/-- The bounds check is sufficient whenever `targetIndex` is not the row count itself: if
`RandomSwap` does not throw (`targetIndex ≤ N`), `targetIndex ≠ N`, `rangeFirst ≤ N`,
`rangeFirst + rangeSize` does not overflow, and `j` lies in the interval from which
`RandomSwap` draws, then `targetIndex` and `j` are row indices. -/
theorem RandomSwap_indices_valid (d : Dataset α) (targetIndex rangeFirst rangeSize j : Nat)
    (hN : d.examples.length < 2 ^ 64) (ht : ¬ targetIndex > d.examples.length)
    (hne : targetIndex ≠ d.examples.length) (hrf : rangeFirst ≤ d.examples.length)
    (hno : rangeFirst + rangeSize < 2 ^ 64) (hlo : rangeFirst ≤ j)
    (hhi : j ≤ wrapSub (wrapAdd rangeFirst (d.CorrectRangeSize rangeFirst rangeSize)) 1) :
    targetIndex < d.examples.length ∧ j < d.examples.length := by
  have hin := CorrectRangeSize_in_range d rangeFirst rangeSize hN hrf hno
  refine ⟨by omega, ?_⟩
  by_cases hlt : rangeFirst < d.examples.length
  · obtain ⟨h1, h2⟩ := CorrectRangeSize_pos d hN hlt hno
    rw [wrapAdd_of_lt (by omega), wrapSub_of_le (by omega) (by omega)] at hhi
    omega
  · have hs : d.CorrectRangeSize rangeFirst rangeSize = 0 := by omega
    rw [hs, wrapAdd_of_lt (by omega), wrapSub_of_le (by omega) (by omega)] at hhi
    omega

/-- Witness for `RandomSwap_indices_valid`: a three-row container, `targetIndex = 2`, the
whole range and the draw `j = 1`. -/
theorem RandomSwap_indices_valid_witness :
    (([1, 2, 3] : List Nat).length < 2 ^ 64 ∧ ¬ 2 > ([1, 2, 3] : List Nat).length ∧
        2 ≠ ([1, 2, 3] : List Nat).length ∧ 0 ≤ ([1, 2, 3] : List Nat).length ∧
        0 + 3 < 2 ^ 64 ∧ 0 ≤ 1 ∧
        1 ≤ wrapSub (wrapAdd 0 ((Dataset.mk [1, 2, 3] 0).CorrectRangeSize 0 3)) 1) ∧
      (2 < ([1, 2, 3] : List Nat).length ∧ 1 < ([1, 2, 3] : List Nat).length) :=
  ⟨by decide,
    RandomSwap_indices_valid (Dataset.mk [1, 2, 3] 0) 2 0 3 1 (by decide) (by decide)
      (by decide) (by decide) (by decide) (by decide) (by decide)⟩

/-- C19 (failing input): on a three-row container `RandomSwap` with `targetIndex = 3`,
`rangeFirst = 0`, `rangeSize = 3` and the draw `j = 1` from the requested interval `[0, 2]`:
the check `targetIndex > size()` lets `targetIndex = 3` pass, no exception is thrown, and
the exchange reads `_examples[3]`, which is not a row: the call has no defined result. -/
theorem RandomSwap_target_at_size :
    ¬ (3 > ([1, 2, 3] : List Nat).length) ∧
      ¬ (3 < ([1, 2, 3] : List Nat).length) ∧
      scriptedEngine.draw 0 (wrapSub (wrapAdd 0 ((Dataset.mk [1, 2, 3] 0).CorrectRangeSize 0 3)) 1)
        [1] = (1, []) ∧
      wrapSub (wrapAdd 0 ((Dataset.mk [1, 2, 3] 0).CorrectRangeSize 0 3)) 1 = 2 ∧
      swapExamples [1, 2, 3] 3 1 = none ∧
      RandomSwap scriptedEngine (Dataset.mk [1, 2, 3] 0) [1] 3 0 3 = .undefined := by
  decide

/-! ### The steps of the shuffle -/

theorem permuteLoop_split (E : UniformIntEngine G) :
    ∀ (a b i : Nat) (d : Dataset α) (rng : G),
      permuteLoop E (a + b) i d rng =
        match permuteLoop E a i d rng with
        | .ok s => permuteLoop E b (i + a) s.1 s.2
        | .thrown e s => .thrown e s
        | .undefined => .undefined := by
  intro a
  induction a with
  | zero =>
    intro b i d rng
    simp only [Nat.zero_add, permuteLoop, Nat.add_zero]
  | succ a ih =>
    intro b i d rng
    have e : a + 1 + b = (a + b) + 1 := by omega
    rw [e]
    simp only [permuteLoop]
    rcases RandomSwap_cases E d rng i i (wrapSub d.examples.length i) with h | h | ⟨l, j, g, _, h⟩
    · simp only [h]
    · simp only [h]
    · simp only [h]
      rw [ih b (i + 1) ⟨l, d.maxExampleSize⟩ g]
      have e2 : i + 1 + a = i + (a + 1) := by omega
      rw [e2]

theorem permuteLoop_frame (E : UniformIntEngine G) :
    ∀ (count i : Nat) (d : Dataset α) (rng : G), d.examples.length < 2 ^ 64 →
      i + count ≤ d.examples.length →
      ∃ d' rng', permuteLoop E count i d rng = .ok (d', rng') ∧
        d'.examples.length = d.examples.length ∧
        ∀ k, k < i → d'.examples[k]? = d.examples[k]? := by
  intro count
  induction count with
  | zero =>
    intro i d rng _ _
    exact ⟨d, rng, rfl, rfl, fun _ _ => rfl⟩
  | succ count ih =>
    intro i d rng hN hle
    obtain ⟨l, hl, hstep⟩ := RandomSwap_step E d rng hN (show i < d.examples.length by omega)
    have hmem := E.draw_mem i (d.examples.length - 1) rng (by omega)
    have hlen : l.length = d.examples.length := (swapExamples_perm hl).length_eq
    obtain ⟨d', rng', hrun, hl', hfr⟩ :=
      ih (i + 1) ⟨l, d.maxExampleSize⟩ (E.draw i (d.examples.length - 1) rng).2
        (by simpa [hlen] using hN) (by simp only [hlen]; omega)
    refine ⟨d', rng', ?_, hl'.trans hlen, ?_⟩
    · simp only [permuteLoop, hstep]
      exact hrun
    · intro k hk
      rw [hfr k (by omega)]
      show l[k]? = _
      rw [swapExamples_getElem? hl k, if_neg (by omega), if_neg (by omega)]

/-- C16: on an `N`-row container, for every generator, every generator state and every
`prefixSize`, with `p` the normalized `prefixSize`: `p ≤ N`; `RandomPermute(rng, prefixSize)`
returns normally (no out-of-range error, no access outside storage); at step `i < p`, run on
the state after `i` steps, the inner normalization leaves the range size `N - i` unchanged,
the draw `j` satisfies `i ≤ j ≤ N - 1`, and positions `i` and `j` are exchanged; the rows at
positions below `i` after any later number of steps `m` (`i ≤ m ≤ p`) are those after `i`
steps; on an empty container the call returns the container as it was. -/
theorem RandomPermute_safe_and_shrinking (E : UniformIntEngine G) (d : Dataset α) (rng : G)
    (prefixSize : Nat) (hN : d.examples.length < 2 ^ 64) (hp : prefixSize < 2 ^ 64) :
    d.CorrectRangeSize 0 prefixSize ≤ d.examples.length ∧
      (∃ d' rng', RandomPermute E d rng prefixSize = .ok (d', rng') ∧
        permuteLoop E (d.CorrectRangeSize 0 prefixSize) 0 d rng = .ok (d', rng')) ∧
      (∀ i, i < d.CorrectRangeSize 0 prefixSize →
        ∃ di gi l, permuteLoop E i 0 d rng = .ok (di, gi) ∧
          di.examples.length = d.examples.length ∧
          di.CorrectRangeSize i (wrapSub di.examples.length i) = d.examples.length - i ∧
          i ≤ (E.draw i (d.examples.length - 1) gi).1 ∧
          (E.draw i (d.examples.length - 1) gi).1 ≤ d.examples.length - 1 ∧
          swapExamples di.examples i (E.draw i (d.examples.length - 1) gi).1 = some l ∧
          RandomSwap E di gi i i (wrapSub di.examples.length i) =
            .ok (⟨l, di.maxExampleSize⟩, (E.draw i (d.examples.length - 1) gi).2) ∧
          permuteLoop E (i + 1) 0 d rng =
            .ok (⟨l, di.maxExampleSize⟩, (E.draw i (d.examples.length - 1) gi).2)) ∧
      (∀ i m, i ≤ m → m ≤ d.CorrectRangeSize 0 prefixSize →
        ∃ di gi dm gm, permuteLoop E i 0 d rng = .ok (di, gi) ∧
          permuteLoop E m 0 d rng = .ok (dm, gm) ∧
          ∀ k, k < i → dm.examples[k]? = di.examples[k]?) ∧
      (d.examples.length = 0 → RandomPermute E d rng prefixSize = .ok (d, rng)) := by
  have hple := CorrectRangeSize_zero_le d prefixSize hN hp
  generalize hpe : d.CorrectRangeSize 0 prefixSize = p at hple
  have hrun : RandomPermute E d rng prefixSize = permuteLoop E p 0 d rng := by
    unfold RandomPermute
    simp only [hpe]
  refine ⟨hple, ?_, ?_, ?_, ?_⟩
  · obtain ⟨d', rng', h, _, _⟩ := permuteLoop_frame E p 0 d rng hN (by omega)
    exact ⟨d', rng', by rw [hrun]; exact h, h⟩
  · intro i hi
    obtain ⟨di, gi, h, hlen, _⟩ := permuteLoop_frame E i 0 d rng hN (by omega)
    have hNi : di.examples.length < 2 ^ 64 := by rw [hlen]; exact hN
    have hii : i < di.examples.length := by rw [hlen]; omega
    obtain ⟨l, hl, hstep⟩ := RandomSwap_step E di gi hNi hii
    have hmem := E.draw_mem i (di.examples.length - 1) gi (by omega)
    have hcr := CorrectRangeSize_rest di hNi hii
    rw [hlen] at hl hstep hmem hcr
    refine ⟨di, gi, l, h, hlen, ?_, hmem.1, hmem.2, hl, ?_, ?_⟩
    · rw [hlen]; exact hcr
    · rw [hlen]; exact hstep
    · have hs := permuteLoop_split E i 1 0 d rng
      rw [h] at hs
      rw [hs]
      simp only [permuteLoop, Nat.zero_add]
      rw [hlen, hstep]
  · intro i m him hmp
    obtain ⟨di, gi, h, hlen, _⟩ := permuteLoop_frame E i 0 d rng hN (by omega)
    obtain ⟨dm, gm, h', _, hfr⟩ := permuteLoop_frame E (m - i) i di gi
      (by rw [hlen]; exact hN) (by rw [hlen]; omega)
    refine ⟨di, gi, dm, gm, h, ?_, hfr⟩
    have hs := permuteLoop_split E i (m - i) 0 d rng
    rw [h] at hs
    have e : i + (m - i) = m := by omega
    rw [e] at hs
    rw [hs]
    simp only [Nat.zero_add]
    exact h'
  · intro h0
    have hp0 : p = 0 := by omega
    rw [hrun, hp0]
    rfl

/-- Witness for C16: a three-row container, the generator replaying the draws 2 and 1, and
`prefixSize = 2`. -/
theorem RandomPermute_safe_and_shrinking_witness :
    (([1, 2, 3] : List Nat).length < 2 ^ 64 ∧ 2 < 2 ^ 64) ∧
      (Dataset.mk [1, 2, 3] 0).CorrectRangeSize 0 2 ≤ ([1, 2, 3] : List Nat).length ∧
      ∃ d' rng', RandomPermute scriptedEngine (Dataset.mk [1, 2, 3] 0) [2, 1] 2 = .ok (d', rng') ∧
        permuteLoop scriptedEngine ((Dataset.mk [1, 2, 3] 0).CorrectRangeSize 0 2) 0
          (Dataset.mk [1, 2, 3] 0) [2, 1] = .ok (d', rng') :=
  ⟨by decide,
    (RandomPermute_safe_and_shrinking scriptedEngine (Dataset.mk [1, 2, 3] 0) [2, 1] 2
      (by decide) (by decide)).1,
    (RandomPermute_safe_and_shrinking scriptedEngine (Dataset.mk [1, 2, 3] 0) [2, 1] 2
      (by decide) (by decide)).2.1⟩

/-! ### The shuffle of a sub-range -/

theorem CorrectRangeSize_kept (d : Dataset α) {fromIndex size : Nat} (hs : size ≠ 0)
    (hle : fromIndex + size ≤ d.examples.length) (hN : d.examples.length < 2 ^ 64) :
    d.CorrectRangeSize fromIndex size = size := by
  unfold CorrectRangeSize
  rw [wrapAdd_of_lt (by omega), if_neg (by omega)]

theorem take_eq_of_getElem? {l l' : List α} {f : Nat}
    (h : ∀ k, k < f → l'[k]? = l[k]?) : l'.take f = l.take f := by
  apply List.ext_getElem?
  intro k
  rw [List.getElem?_take, List.getElem?_take]
  by_cases hk : k < f
  · rw [if_pos hk, if_pos hk, h k hk]
  · rw [if_neg hk, if_neg hk]

theorem drop_eq_of_getElem? {l l' : List α} {f : Nat}
    (h : ∀ k, f ≤ k → l'[k]? = l[k]?) : l'.drop f = l.drop f := by
  apply List.ext_getElem?
  intro k
  rw [List.getElem?_drop, List.getElem?_drop, h (f + k) (by omega)]

theorem perm_inside_of_outside {l l' : List α} {f s : Nat}
    (hperm : l'.Perm l) (hout : ∀ k, k < f ∨ f + s ≤ k → l'[k]? = l[k]?) :
    ((l'.drop f).take s).Perm ((l.drop f).take s) := by
  have ht : l'.take f = l.take f := take_eq_of_getElem? (fun k hk => hout k (Or.inl hk))
  have hd : l'.drop (f + s) = l.drop (f + s) :=
    drop_eq_of_getElem? (fun k hk => hout k (Or.inr hk))
  have e : ∀ m : List α, m = m.take f ++ ((m.drop f).take s ++ m.drop (f + s)) := by
    intro m
    have h1 : (m.drop f).take s ++ m.drop (f + s) = m.drop f := by
      rw [← List.drop_drop, List.take_append_drop]
    rw [h1, List.take_append_drop]
  have hp : (l'.take f ++ ((l'.drop f).take s ++ l'.drop (f + s))).Perm
      (l.take f ++ ((l.drop f).take s ++ l.drop (f + s))) := by
    rw [← e l', ← e l]
    exact hperm
  rw [ht, hd] at hp
  exact (List.perm_append_right_iff _).mp ((List.perm_append_left_iff _).mp hp)

theorem permuteRangeLoop_frame (E : UniformIntEngine G) (rangeFirst rangeSize : Nat) :
    ∀ (count s : Nat) (d : Dataset α) (rng : G), d.examples.length < 2 ^ 64 →
      rangeFirst + rangeSize ≤ d.examples.length → s + count ≤ rangeSize →
      ∃ d' rng', permuteRangeLoop E rangeFirst rangeSize count s d rng = .ok (d', rng') ∧
        d'.examples.Perm d.examples ∧ d'.maxExampleSize = d.maxExampleSize ∧
        ∀ k, k < rangeFirst + s ∨ rangeFirst + rangeSize ≤ k →
          d'.examples[k]? = d.examples[k]? := by
  intro count
  induction count with
  | zero =>
    intro s d rng _ _ _
    exact ⟨d, rng, rfl, List.Perm.refl _, rfl, fun _ _ => rfl⟩
  | succ count ih =>
    intro s d rng hN hin hle
    have hidx : wrapAdd rangeFirst s = rangeFirst + s := wrapAdd_of_lt (by omega)
    have hrest : wrapSub rangeSize s = rangeSize - s := wrapSub_of_le (by omega) (by omega)
    have hlt : rangeFirst + s < d.examples.length := by omega
    have hkept : d.CorrectRangeSize (rangeFirst + s) (rangeSize - s) = rangeSize - s :=
      CorrectRangeSize_kept d (by omega) (by omega) hN
    obtain ⟨l, hl, hstep⟩ := RandomSwap_ok E d rng (rangeFirst + s) (rangeFirst + s)
      (rangeSize - s) hN hlt hlt (by omega)
    have hmem := E.draw_mem (rangeFirst + s)
      (rangeFirst + s + d.CorrectRangeSize (rangeFirst + s) (rangeSize - s) - 1) rng
      (by rw [hkept]; omega)
    rw [hkept] at hl hstep hmem
    have hperm : l.Perm d.examples := swapExamples_perm hl
    have hlen : l.length = d.examples.length := hperm.length_eq
    obtain ⟨d', rng', hrun, hp, hm, hfr⟩ :=
      ih (s + 1) ⟨l, d.maxExampleSize⟩
        (E.draw (rangeFirst + s) (rangeFirst + s + (rangeSize - s) - 1) rng).2
        (by simpa [hlen] using hN) (by simp only [hlen]; omega) (by omega)
    refine ⟨d', rng', ?_, hp.trans hperm, hm, ?_⟩
    · simp only [permuteRangeLoop, hidx, hrest, hstep]
      exact hrun
    · intro k hk
      rw [hfr k (by omega)]
      show l[k]? = _
      rw [swapExamples_getElem? hl k, if_neg (by omega), if_neg (by omega)]

/-- The sub-range shuffle on every range whose end `rangeFirst + rangeSize` does not overflow
`size_t`, with `r` the normalized range size: a `prefixSize` that is zero or above `r` gives
the outcome of `prefixSize = r`; the call returns normally; every row outside
`[rangeFirst, rangeFirst + r)` is where it was; the rows inside that range are a
rearrangement of the rows that were there. -/
theorem RandomPermuteRange_in_range (E : UniformIntEngine G) (d : Dataset α) (rng : G)
    (rangeFirst rangeSize prefixSize : Nat) (hN : d.examples.length < 2 ^ 64)
    (hrf : rangeFirst ≤ d.examples.length) (hno : rangeFirst + rangeSize < 2 ^ 64) :
    (prefixSize = 0 ∨ prefixSize > d.CorrectRangeSize rangeFirst rangeSize →
        RandomPermuteRange E d rng rangeFirst rangeSize prefixSize =
          RandomPermuteRange E d rng rangeFirst rangeSize
            (d.CorrectRangeSize rangeFirst rangeSize)) ∧
      ∃ d' rng', RandomPermuteRange E d rng rangeFirst rangeSize prefixSize = .ok (d', rng') ∧
        d'.examples.length = d.examples.length ∧
        d'.maxExampleSize = d.maxExampleSize ∧
        (∀ k, k < rangeFirst ∨ rangeFirst + d.CorrectRangeSize rangeFirst rangeSize ≤ k →
          d'.examples[k]? = d.examples[k]?) ∧
        ((d'.examples.drop rangeFirst).take (d.CorrectRangeSize rangeFirst rangeSize)).Perm
          ((d.examples.drop rangeFirst).take (d.CorrectRangeSize rangeFirst rangeSize)) := by
  have hin := CorrectRangeSize_in_range d rangeFirst rangeSize hN hrf hno
  generalize hr : d.CorrectRangeSize rangeFirst rangeSize = r at hin
  constructor
  · intro hp
    unfold RandomPermuteRange
    simp only [hr]
    rw [if_pos (by omega)]
    split <;> rfl
  · obtain ⟨d', rng', hrun, hperm, hm, hfr⟩ := permuteRangeLoop_frame E rangeFirst r
      (if prefixSize > r ∨ prefixSize = 0 then r else prefixSize) 0 d rng hN hin
      (by split <;> omega)
    have hout : ∀ k, k < rangeFirst ∨ rangeFirst + r ≤ k →
        d'.examples[k]? = d.examples[k]? := fun k hk => hfr k (by omega)
    refine ⟨d', rng', ?_, hperm.length_eq, hm, hout, perm_inside_of_outside hperm hout⟩
    unfold RandomPermuteRange
    simp only [hr]
    exact hrun

/-- Witness for `RandomPermuteRange_in_range`: rows 1 to 3 of a five-row container. -/
theorem RandomPermuteRange_in_range_witness :
    (([7, 5, 3, 4, 1] : List Nat).length < 2 ^ 64 ∧ 1 ≤ ([7, 5, 3, 4, 1] : List Nat).length ∧
        1 + 3 < 2 ^ 64) ∧
      ∃ d' rng', RandomPermuteRange scriptedEngine (Dataset.mk [7, 5, 3, 4, 1] 0) [3, 2] 1 3 0 =
          .ok (d', rng') ∧
        d'.examples.length = ([7, 5, 3, 4, 1] : List Nat).length :=
  ⟨by decide,
    (RandomPermuteRange_in_range scriptedEngine (Dataset.mk [7, 5, 3, 4, 1] 0) [3, 2] 1 3 0
      (by decide) (by decide) (by decide)).2.imp fun _ h => h.imp fun _ h => ⟨h.1, h.2.1⟩⟩

/-- The shuffle of the witness, evaluated: rows 0 and 4 keep their places. -/
theorem RandomPermuteRange_scenario :
    RandomPermuteRange scriptedEngine (Dataset.mk [7, 5, 3, 4, 1] 0) [3, 2] 1 3 0 =
      .ok (Dataset.mk [7, 4, 3, 5, 1] 0, []) := by
  decide

/-- C12 (failing input): on a five-row container `RandomPermute(rng, 3, 2^64 - 1, 1)`
gets the range size back from `CorrectRangeSize` unnormalized, `2^64 - 1`, because
`3 + (2^64 - 1)` wraps to `2`; the first step calls `RandomSwap(rng, 3, 3, 2^64 - 1)`, which
builds the distribution on `[3, 3 + (2^64 - 1) - 1] = [3, 1]`, an empty interval: the call
has no defined result, whereas rows 3 and 4 were to be shuffled and rows 0 to 2 left
alone. -/
theorem RandomPermuteRange_overflow_undefined :
    (Dataset.mk [1, 5, 3, 4, 9] 0).CorrectRangeSize 3 (2 ^ 64 - 1) = 2 ^ 64 - 1 ∧
      wrapSub (wrapAdd 3 ((Dataset.mk [1, 5, 3, 4, 9] 0).CorrectRangeSize 3 (2 ^ 64 - 1))) 1 = 1 ∧
      RandomSwap scriptedEngine (Dataset.mk [1, 5, 3, 4, 9] 0) [4] 3 3 (2 ^ 64 - 1) =
        .undefined ∧
      RandomPermuteRange scriptedEngine (Dataset.mk [1, 5, 3, 4, 9] 0) [4] 3 (2 ^ 64 - 1) 1 =
        .undefined := by
  decide

/-! ### The invariant of `maxExampleSize` -/

theorem maxDataSize_append_singleton (dataSize : α → Nat) (l : List α) (x : α) :
    maxDataSize dataSize (l ++ [x]) = max (maxDataSize dataSize l) (dataSize x) := by
  induction l with
  | nil => simp [maxDataSize]
  | cons y l ih =>
    simp only [maxDataSize, List.cons_append, List.map_cons, List.foldr_cons] at ih ⊢
    rw [ih, max_assoc]

theorem maxDataSize_perm (dataSize : α → Nat) {l l' : List α} (h : l'.Perm l) :
    maxDataSize dataSize l' = maxDataSize dataSize l := by
  induction h with
  | nil => rfl
  | cons x _ ih =>
    simp only [maxDataSize, List.map_cons, List.foldr_cons] at ih ⊢
    rw [ih]
  | swap x y l =>
    simp only [maxDataSize, List.map_cons, List.foldr_cons]
    rw [← max_assoc, ← max_assoc, max_comm (dataSize y)]
  | trans _ _ ih1 ih2 => rw [ih1, ih2]

theorem MaxSizeInvariant_AddExample (dataSize : α → Nat) (d : Dataset α) (ex : α)
    (h : MaxSizeInvariant dataSize d) : MaxSizeInvariant dataSize (AddExample dataSize d ex) := by
  unfold MaxSizeInvariant at h ⊢
  rw [AddExample_eq]
  show max d.maxExampleSize (dataSize ex) = maxDataSize dataSize (d.examples ++ [ex])
  rw [maxDataSize_append_singleton, h]

theorem MaxSizeInvariant_of_perm (dataSize : α → Nat) {d d' : Dataset α}
    (h : MaxSizeInvariant dataSize d) (hp : d'.examples.Perm d.examples)
    (hm : d'.maxExampleSize = d.maxExampleSize) : MaxSizeInvariant dataSize d' := by
  unfold MaxSizeInvariant at h ⊢
  rw [hm, h, maxDataSize_perm dataSize hp]

theorem drain_invariant (dataSize : α → Nat) : ∀ (n : Nat) (it : DatasetExampleIterator γ α)
    (d d' : Dataset α), it.endPos - it.current = n → MaxSizeInvariant dataSize d →
    drain dataSize it d = .ok d' → MaxSizeInvariant dataSize d' := by
  intro n
  induction n with
  | zero =>
    intro it d d' hn hinv hrun
    rw [drain] at hrun
    have hv : ¬ it.IsValid = true := by
      simp only [DatasetExampleIterator.IsValid, decide_eq_true_eq]
      omega
    rw [if_neg hv] at hrun
    simp only [Outcome.ok.injEq] at hrun
    rw [← hrun]
    exact hinv
  | succ n ih =>
    intro it d d' hn hinv hrun
    rw [drain] at hrun
    have hv : it.IsValid = true := by
      simp only [DatasetExampleIterator.IsValid, decide_eq_true_eq]
      omega
    rw [if_pos hv] at hrun
    cases hget : it.Get with
    | none =>
      rw [hget] at hrun
      simp at hrun
    | some ex =>
      rw [hget] at hrun
      simp only at hrun
      exact ih it.Next _ d' (by simp only [DatasetExampleIterator.Next]; omega)
        (MaxSizeInvariant_AddExample dataSize d ex hinv) hrun

theorem splice_perm (l m : List α) (first last : Nat)
    (hm : m.Perm ((l.drop first).take (last - first))) (hle : first ≤ last) :
    (l.take first ++ m ++ l.drop last).Perm l := by
  have e : l = l.take first ++ (l.drop first).take (last - first) ++ l.drop last := by
    have h1 : l.drop last = (l.drop first).drop (last - first) := by
      rw [List.drop_drop]
      congr 1
      omega
    rw [h1, List.append_assoc, List.take_append_drop, List.take_append_drop]
  conv => rhs; rw [e]
  exact (hm.append_left _).append_right _

theorem SortRange_perm [LinearOrder κ] (S : StdSort α) (sortKey : α → κ) (d d' : Dataset α)
    (fromIndex size : Nat) (h : SortRange S sortKey d fromIndex size = .ok d') :
    d'.examples.Perm d.examples ∧ d'.maxExampleSize = d.maxExampleSize := by
  unfold SortRange at h
  simp only at h
  split at h
  · rename_i first last _
    split at h
    · rename_i hle
      simp only [Outcome.ok.injEq] at h
      rw [← h]
      exact ⟨splice_perm _ _ first last
        (S.perm _ _ (keyComparator_strictWeakOrdering sortKey)) hle, rfl⟩
    · simp at h
  · simp at h

theorem Partition_perm (P : StdPartition α) (pred : α → Bool) (d d' : Dataset α)
    (fromIndex size : Nat) (h : Partition P pred d fromIndex size = .ok d') :
    d'.examples.Perm d.examples ∧ d'.maxExampleSize = d.maxExampleSize := by
  unfold Partition at h
  simp only at h
  split at h
  · rename_i first last _
    split at h
    · rename_i hle
      simp only [Outcome.ok.injEq] at h
      rw [← h]
      exact ⟨splice_perm _ _ first last (P.perm _ _) hle, rfl⟩
    · simp at h
  · simp at h

theorem RandomSwap_state (E : UniformIntEngine G) (d d' : Dataset α) (rng rng' : G)
    (targetIndex rangeFirst rangeSize : Nat)
    (h : RandomSwap E d rng targetIndex rangeFirst rangeSize = .ok (d', rng') ∨
      ∃ e, RandomSwap E d rng targetIndex rangeFirst rangeSize = .thrown e (d', rng')) :
    d'.examples.Perm d.examples ∧ d'.maxExampleSize = d.maxExampleSize := by
  rcases RandomSwap_cases E d rng targetIndex rangeFirst rangeSize with
    h1 | h1 | ⟨l, j, g, hl, h1⟩
  · rw [h1] at h
    rcases h with h | ⟨e, h⟩
    · simp at h
    · simp only [Outcome.thrown.injEq, Prod.mk.injEq] at h
      rw [← h.2.1]
      exact ⟨List.Perm.refl _, rfl⟩
  · rw [h1] at h
    rcases h with h | ⟨e, h⟩ <;> simp at h
  · rw [h1] at h
    rcases h with h | ⟨e, h⟩
    · simp only [Outcome.ok.injEq, Prod.mk.injEq] at h
      rw [← h.1]
      exact ⟨swapExamples_perm hl, rfl⟩
    · simp at h

theorem RandomPermute_state (E : UniformIntEngine G) (d d' : Dataset α) (rng rng' : G)
    (prefixSize : Nat)
    (h : RandomPermute E d rng prefixSize = .ok (d', rng') ∨
      ∃ e, RandomPermute E d rng prefixSize = .thrown e (d', rng')) :
    d'.examples.Perm d.examples ∧ d'.maxExampleSize = d.maxExampleSize := by
  unfold RandomPermute at h
  simp only at h
  rcases permuteLoop_outcome E (d.CorrectRangeSize 0 prefixSize) 0 d rng with
    h1 | ⟨d1, g1, h1, hp, hm⟩
  · rw [h1] at h
    rcases h with h | ⟨e, h⟩ <;> simp at h
  · rcases h1 with h1 | h1
    · rw [h1] at h
      rcases h with h | ⟨e, h⟩
      · simp only [Outcome.ok.injEq, Prod.mk.injEq] at h
        rw [← h.1]
        exact ⟨hp, hm⟩
      · simp at h
    · rw [h1] at h
      rcases h with h | ⟨e, h⟩
      · simp at h
      · simp only [Outcome.thrown.injEq, Prod.mk.injEq] at h
        rw [← h.2.1]
        exact ⟨hp, hm⟩

theorem RandomPermuteRange_state (E : UniformIntEngine G) (d d' : Dataset α) (rng rng' : G)
    (rangeFirst rangeSize prefixSize : Nat)
    (h : RandomPermuteRange E d rng rangeFirst rangeSize prefixSize = .ok (d', rng') ∨
      ∃ e, RandomPermuteRange E d rng rangeFirst rangeSize prefixSize =
        .thrown e (d', rng')) :
    d'.examples.Perm d.examples ∧ d'.maxExampleSize = d.maxExampleSize := by
  unfold RandomPermuteRange at h
  simp only at h
  rcases permuteRangeLoop_outcome E rangeFirst (d.CorrectRangeSize rangeFirst rangeSize)
    (if prefixSize > d.CorrectRangeSize rangeFirst rangeSize ∨ prefixSize = 0 then
      d.CorrectRangeSize rangeFirst rangeSize else prefixSize) 0 d rng with
    h1 | ⟨d1, g1, h1, hp, hm⟩
  · rw [h1] at h
    rcases h with h | ⟨e, h⟩ <;> simp at h
  · rcases h1 with h1 | h1
    · rw [h1] at h
      rcases h with h | ⟨e, h⟩
      · simp only [Outcome.ok.injEq, Prod.mk.injEq] at h
        rw [← h.1]
        exact ⟨hp, hm⟩
      · simp at h
    · rw [h1] at h
      rcases h with h | ⟨e, h⟩
      · simp at h
      · simp only [Outcome.thrown.injEq, Prod.mk.injEq] at h
        rw [← h.2.1]
        exact ⟨hp, hm⟩

theorem Reachable_invariant (dataSize : α → Nat) (d : Dataset α)
    (h : Reachable dataSize d) : MaxSizeInvariant dataSize d := by
  induction h with
  | empty => rfl
  | addExample d ex _ ih => exact MaxSizeInvariant_AddExample dataSize d ex ih
  | reset d _ _ => rfl
  | construct it d' hrun =>
    exact drain_invariant dataSize _ it ⟨[], 0⟩ d' rfl rfl hrun
  | randomSwap E d rng t rf rs d' rng' _ hrun ih =>
    obtain ⟨hp, hm⟩ := RandomSwap_state E d d' rng rng' t rf rs (Or.inl hrun)
    exact MaxSizeInvariant_of_perm dataSize ih hp hm
  | randomSwapThrown E d rng t rf rs e d' rng' _ hrun ih =>
    obtain ⟨hp, hm⟩ := RandomSwap_state E d d' rng rng' t rf rs (Or.inr ⟨e, hrun⟩)
    exact MaxSizeInvariant_of_perm dataSize ih hp hm
  | randomPermute E d rng p d' rng' _ hrun ih =>
    obtain ⟨hp, hm⟩ := RandomPermute_state E d d' rng rng' p (Or.inl hrun)
    exact MaxSizeInvariant_of_perm dataSize ih hp hm
  | randomPermuteThrown E d rng p e d' rng' _ hrun ih =>
    obtain ⟨hp, hm⟩ := RandomPermute_state E d d' rng rng' p (Or.inr ⟨e, hrun⟩)
    exact MaxSizeInvariant_of_perm dataSize ih hp hm
  | randomPermuteRange E d rng rf rs p d' rng' _ hrun ih =>
    obtain ⟨hp, hm⟩ := RandomPermuteRange_state E d d' rng rng' rf rs p (Or.inl hrun)
    exact MaxSizeInvariant_of_perm dataSize ih hp hm
  | randomPermuteRangeThrown E d rng rf rs p e d' rng' _ hrun ih =>
    obtain ⟨hp, hm⟩ := RandomPermuteRange_state E d d' rng rng' rf rs p (Or.inr ⟨e, hrun⟩)
    exact MaxSizeInvariant_of_perm dataSize ih hp hm
  | sort S sortKey d f s d' _ hrun ih =>
    obtain ⟨hp, hm⟩ := SortRange_perm S sortKey d d' f s hrun
    exact MaxSizeInvariant_of_perm dataSize ih hp hm
  | partition P pred d f s d' _ hrun ih =>
    obtain ⟨hp, hm⟩ := Partition_perm P pred d d' f s hrun
    exact MaxSizeInvariant_of_perm dataSize ih hp hm

/-- C11: in every state reachable from the empty container by `AddExample`, `Reset`,
construction from a sequence, `RandomSwap`, the two `RandomPermute`, `Sort` and `Partition`,
`maxExampleSize` is the maximum feature-vector length over the stored rows (zero when there
are none); `AddExample` appends the row at the end of the rows and does not decrease
`maxExampleSize`; `Reset` leaves no rows and `maxExampleSize` zero. -/
theorem maxExampleSize_invariant (dataSize : α → Nat) :
    (∀ d, Reachable dataSize d → d.maxExampleSize = maxDataSize dataSize d.examples) ∧
      (∀ d : Dataset α, d.examples = [] → maxDataSize dataSize d.examples = 0) ∧
      (∀ (d : Dataset α) (ex : α),
        (AddExample dataSize d ex).examples = d.examples ++ [ex] ∧
        (AddExample dataSize d ex).examples.length = d.examples.length + 1 ∧
        d.maxExampleSize ≤ (AddExample dataSize d ex).maxExampleSize) ∧
      (∀ d : Dataset α, (Reset d).examples = [] ∧ (Reset d).maxExampleSize = 0) := by
  refine ⟨fun d h => Reachable_invariant dataSize d h, ?_, ?_, fun _ => ⟨rfl, rfl⟩⟩
  · intro d h
    rw [h]
    rfl
  · intro d ex
    rw [AddExample_eq]
    exact ⟨rfl, by simp, Nat.le_max_left _ _⟩

/-- Witness for C11: the container reached by adding rows of feature-vector lengths 2 and 5
and sorting; its `maxExampleSize` is 5. -/
theorem maxExampleSize_invariant_witness :
    Reachable (id : Nat → Nat) (Dataset.mk [2, 5] 5) ∧
      (Dataset.mk [2, 5] 5).maxExampleSize = maxDataSize id [2, 5] :=
  ⟨Reachable.sort (insertionStdSort Nat) (id : Nat → Nat) (Dataset.mk [5, 2] 5) 0 0 _
      (Reachable.addExample _ 2 (Reachable.addExample _ 5 Reachable.empty)) (by decide),
    (maxExampleSize_invariant (id : Nat → Nat)).1 _
      (Reachable.sort (insertionStdSort Nat) (id : Nat → Nat) (Dataset.mk [5, 2] 5) 0 0 _
        (Reachable.addExample _ 2 (Reachable.addExample _ 5 Reachable.empty)) (by decide))⟩

/-! ### The type-erased view -/

/-- C14: with the abstract reference modelled as the sum of the two enumerated concrete
containers, for either variant and every stored `(fromIndex, size)`,
`AnyDataset::GetIterator<U>()` returns the sequence that the referenced concrete container's
`GetIterator<U>(fromIndex, size)` returns, handed back as a type-erased sequence; every
reference is exactly one of the two variants, so the resolution has a result in every
case. -/
theorem AnyDataset_dispatch {A D U : Type} (convertAuto : A → U) (convertDense : D → U)
    (fromIndex size : Nat) :
    (∀ dataset : Dataset A,
        AnyDataset.GetIterator convertAuto convertDense
            ⟨IDataset.autoSupervised dataset, fromIndex, size⟩ =
          (GetIterator convertAuto dataset fromIndex size).map ExampleIterator.overAuto) ∧
      (∀ dataset : Dataset D,
        AnyDataset.GetIterator convertAuto convertDense
            ⟨IDataset.denseSupervised dataset, fromIndex, size⟩ =
          (GetIterator convertDense dataset fromIndex size).map ExampleIterator.overDense) ∧
      (∀ reference : IDataset A D,
        ((∃ dataset, reference = IDataset.autoSupervised dataset) ∧
            ¬ ∃ dataset, reference = IDataset.denseSupervised dataset) ∨
          ((∃ dataset, reference = IDataset.denseSupervised dataset) ∧
            ¬ ∃ dataset, reference = IDataset.autoSupervised dataset)) := by
  refine ⟨fun _ => rfl, fun _ => rfl, ?_⟩
  intro reference
  cases reference with
  | autoSupervised dataset =>
    left
    refine ⟨⟨dataset, rfl⟩, ?_⟩
    rintro ⟨_, h⟩
    cases h
  | denseSupervised dataset =>
    right
    refine ⟨⟨dataset, rfl⟩, ?_⟩
    rintro ⟨_, h⟩
    cases h

/-! ### Printing -/

theorem printLoop_eq (printRow : α → List Char) (maxSize : Nat) (d : Dataset α)
    (tabs bound : Nat) (hmax : wrapMul tabs 4 ≤ maxSize) :
    ∀ (n index : Nat) (os : List Char), bound - index = n → bound ≤ d.examples.length →
      printLoop printRow maxSize d tabs bound index os =
        .written
          (os ++ printedText printRow (wrapMul tabs 4) ((d.examples.drop index).take n)) := by
  intro n
  induction n with
  | zero =>
    intro index os hn _
    rw [printLoop, if_neg (by omega)]
    simp [printedText]
  | succ n ih =>
    intro index os hn hle
    have hlt : index < d.examples.length := by omega
    rw [printLoop, if_pos (by omega), if_pos hmax, List.getElem?_eq_getElem hlt]
    simp only
    rw [ih (index + 1) _ (by omega) hle, List.drop_eq_getElem_cons hlt, List.take_succ_cons]
    simp only [printedText, printedLine, List.map_cons, List.flatten_cons, List.append_assoc]

theorem Print_eq (printRow : α → List Char) (maxSize : Nat) (d : Dataset α) (os : List Char)
    (tabs fromIndex size : Nat) (hN : d.examples.length < 2 ^ 64)
    (hfrom : fromIndex ≤ d.examples.length) (hno : fromIndex + size < 2 ^ 64)
    (hmax : wrapMul tabs 4 ≤ maxSize) :
    Print printRow maxSize d os tabs fromIndex size =
      .written (os ++ printedText printRow (wrapMul tabs 4)
        ((d.examples.drop fromIndex).take (d.CorrectRangeSize fromIndex size))) := by
  have hin := CorrectRangeSize_in_range d fromIndex size hN hfrom hno
  unfold Print
  simp only
  rw [wrapAdd_of_lt (by omega)]
  exact printLoop_eq printRow maxSize d tabs _ hmax _ fromIndex os (by omega) hin

/-- The print format on every range whose end `from + size` does not overflow `size_t` and
for every indentation of `4 * tabs` characters that a `std::string` can hold
(`4 * tabs ≤ max_size()`): `Print` returns normally and appends to the text written so far
exactly `s` lines, `s` being the normalized size, and nothing else; the `k`-th line is
`4 * tabs` space characters, the printable form of row `from + k` and a newline, in index
order; `operator<<` writes the text of `Print` with `tabs = 0` over the whole container. -/
theorem Print_in_range (printRow : α → List Char) (maxSize : Nat) (d : Dataset α)
    (os : List Char) (tabs fromIndex size : Nat) (hN : d.examples.length < 2 ^ 64)
    (hfrom : fromIndex ≤ d.examples.length) (hno : fromIndex + size < 2 ^ 64)
    (hsz : maxSize < 2 ^ 64) (htabs : 4 * tabs ≤ maxSize) :
    Print printRow maxSize d os tabs fromIndex size =
        .written (os ++ printedText printRow (4 * tabs)
          ((d.examples.drop fromIndex).take (d.CorrectRangeSize fromIndex size))) ∧
      ((d.examples.drop fromIndex).take (d.CorrectRangeSize fromIndex size)).length =
        d.CorrectRangeSize fromIndex size ∧
      (∀ k, k < d.CorrectRangeSize fromIndex size →
        fromIndex + k < d.examples.length ∧
        ((d.examples.drop fromIndex).take (d.CorrectRangeSize fromIndex size))[k]? =
          d.examples[fromIndex + k]?) ∧
      operatorOut printRow maxSize os d = Print printRow maxSize d os 0 0 0 ∧
      operatorOut printRow maxSize os d = .written (os ++ printedText printRow 0 d.examples) := by
  have hin := CorrectRangeSize_in_range d fromIndex size hN hfrom hno
  have hw : wrapMul tabs 4 = 4 * tabs := by
    unfold wrapMul
    rw [Nat.mod_eq_of_lt (by omega)]
    omega
  have hw0 : wrapMul 0 4 = 0 := by
    unfold wrapMul
    rfl
  refine ⟨?_, length_range d.examples fromIndex _ hin, ?_, rfl, ?_⟩
  · rw [Print_eq printRow maxSize d os tabs fromIndex size hN hfrom hno (by omega), hw]
  · intro k hk
    refine ⟨by omega, ?_⟩
    rw [List.getElem?_take_of_lt hk, List.getElem?_drop]
  · unfold operatorOut
    rw [Print_eq printRow maxSize d os 0 0 0 hN (Nat.zero_le _) (by omega) (by omega), hw0]
    have h0 : d.CorrectRangeSize 0 0 = d.examples.length := by
      unfold CorrectRangeSize
      rw [if_pos (Or.inl rfl), wrapSub_of_le (Nat.zero_le _) hN]
      rfl
    rw [h0, List.drop_zero, List.take_length]

/-- Witness for `Print_in_range`: rows 1 to 2 of a three-row container with one indent
unit, `max_size()` being `2^62`. -/
theorem Print_in_range_witness :
    (([10, 20, 30] : List Nat).length < 2 ^ 64 ∧ 1 ≤ ([10, 20, 30] : List Nat).length ∧
        1 + 2 < 2 ^ 64 ∧ 2 ^ 62 < 2 ^ 64 ∧ 4 * 1 ≤ 2 ^ 62) ∧
      Print (fun n => Nat.toDigits 10 n) (2 ^ 62) (Dataset.mk [10, 20, 30] 0) [] 1 1 2 =
        .written ([] ++ printedText (fun n => Nat.toDigits 10 n) (4 * 1)
          ((([10, 20, 30] : List Nat).drop 1).take
            ((Dataset.mk [10, 20, 30] 0).CorrectRangeSize 1 2))) :=
  ⟨by decide,
    (Print_in_range (fun n => Nat.toDigits 10 n) (2 ^ 62) (Dataset.mk [10, 20, 30] 0) [] 1 1 2
      (by decide) (by decide) (by decide) (by decide) (by decide)).1⟩

/-- The text of the witness, evaluated: two lines, each with four spaces of indentation. -/
theorem printedText_scenario :
    printedText (fun n => Nat.toDigits 10 n) (4 * 1)
        ((([10, 20, 30] : List Nat).drop 1).take
          ((Dataset.mk [10, 20, 30] 0).CorrectRangeSize 1 2)) =
      [' ', ' ', ' ', ' ', '2', '0', '\n', ' ', ' ', ' ', ' ', '3', '0', '\n'] := by
  decide

/-- C15 (failing input): on a five-row container `Print(os, 1, 3, 2^64 - 1)` gets the size
back from `CorrectRangeSize` unnormalized, `2^64 - 1`, because `3 + (2^64 - 1)` wraps to
`2`; the loop runs `index` from `3` while `index < 3 + size = 2`, that is not at all, and
nothing is written, whatever `max_size()` is, whereas the two lines of rows 3 and 4 were to
be written. -/
theorem Print_overflow_writes_nothing (maxSize : Nat) :
    (Dataset.mk [1, 5, 3, 4, 9] 0).CorrectRangeSize 3 (2 ^ 64 - 1) = 2 ^ 64 - 1 ∧
      wrapAdd 3 ((Dataset.mk [1, 5, 3, 4, 9] 0).CorrectRangeSize 3 (2 ^ 64 - 1)) = 2 ∧
      Print (fun n => Nat.toDigits 10 n) maxSize (Dataset.mk [1, 5, 3, 4, 9] 0) [] 1 3
        (2 ^ 64 - 1) = .written [] ∧
      printedText (fun n => Nat.toDigits 10 n) (4 * 1) (([1, 5, 3, 4, 9] : List Nat).drop 3) =
        [' ', ' ', ' ', ' ', '4', '\n', ' ', ' ', ' ', ' ', '9', '\n'] := by
  have hs : (Dataset.mk [1, 5, 3, 4, 9] 0).CorrectRangeSize 3 (2 ^ 64 - 1) = 2 ^ 64 - 1 := by
    decide
  have hb : wrapAdd 3 (2 ^ 64 - 1) = 2 := by decide
  refine ⟨hs, by rw [hs]; exact hb, ?_, by decide⟩
  unfold Print
  simp only [hs, hb]
  rw [printLoop, if_neg (by decide)]

/-- The indentation does not fit a `std::string`: on a range that does not overflow and
holds at least one row, when `tabs * 4` (as computed in `size_t`) is above `max_size()`,
`Print` leaves with `std::length_error` at the first row and nothing is written. -/
theorem Print_length_error (printRow : α → List Char) (maxSize : Nat) (d : Dataset α)
    (os : List Char) (tabs fromIndex size : Nat) (hN : d.examples.length < 2 ^ 64)
    (hfrom : fromIndex ≤ d.examples.length) (hno : fromIndex + size < 2 ^ 64)
    (hrow : 1 ≤ d.CorrectRangeSize fromIndex size) (hbig : maxSize < wrapMul tabs 4) :
    Print printRow maxSize d os tabs fromIndex size = .lengthError os := by
  have hin := CorrectRangeSize_in_range d fromIndex size hN hfrom hno
  unfold Print
  simp only
  rw [wrapAdd_of_lt (by omega), printLoop, if_pos (by omega), if_neg (by omega)]

/-- Witness for `Print_length_error`: `tabs = 2^61` asks for `2^63` spaces, above a
`max_size()` of `2^62`. -/
theorem Print_length_error_witness :
    (([5] : List Nat).length < 2 ^ 64 ∧ 0 ≤ ([5] : List Nat).length ∧ 0 + 0 < 2 ^ 64 ∧
        1 ≤ (Dataset.mk [5] 0).CorrectRangeSize 0 0 ∧ 2 ^ 62 < wrapMul (2 ^ 61) 4) ∧
      Print (fun n => Nat.toDigits 10 n) (2 ^ 62) (Dataset.mk [5] 0) [] (2 ^ 61) 0 0 =
        .lengthError [] :=
  ⟨by decide,
    Print_length_error (fun n => Nat.toDigits 10 n) (2 ^ 62) (Dataset.mk [5] 0) [] (2 ^ 61) 0 0
      (by decide) (by decide) (by decide) (by decide) (by decide)⟩

/-- The indentation wraps: with `tabs = 2^62` the product `tabs * 4` is zero in `size_t`, so
`Print` on the one-row container `[5]` writes the line without any indentation, whatever
`max_size()` is, which is not the text with `4 * tabs` leading spaces. -/
theorem Print_indent_wraps (maxSize : Nat) :
    Print (fun n => Nat.toDigits 10 n) maxSize (Dataset.mk [5] 0) [] (2 ^ 62) 0 0 =
        .written ['5', '\n'] ∧
      ['5', '\n'] ≠ printedText (fun n => Nat.toDigits 10 n) (4 * 2 ^ 62) [5] := by
  constructor
  · have hw : wrapMul (2 ^ 62) 4 = 0 := by decide
    rw [Print_eq (fun n => Nat.toDigits 10 n) maxSize (Dataset.mk [5] 0) [] (2 ^ 62) 0 0
      (by decide) (by decide) (by decide) (by rw [hw]; exact Nat.zero_le _), hw]
    decide
  · intro h
    have h0 := congrArg (fun t : List Char => t[0]?) h
    simp only [printedText, printedLine, List.map_cons, List.map_nil, List.flatten_cons,
      List.flatten_nil, List.append_assoc] at h0
    rw [List.getElem?_append_left (by rw [List.length_replicate]; decide),
      List.getElem?_replicate, if_pos (by decide)] at h0
    revert h0
    decide

end Dataset

end data
end emll
